import Mathlib

/-!
Verification of the `mapservice` minimap-localization matching engine.

The Go source works on packed RGBA byte buffers (`img.Pix`, `img.Stride`)
addressed by flat integer offsets.  We embed an image as its geometry plus a
total byte function on offsets together with the buffer length, so that the
source's offset arithmetic and its `off < 0 || off+2 >= len(pix)` bounds
checks translate verbatim.  Go `int` arithmetic is modeled by unbounded `ℤ`
(no claim here depends on 64-bit overflow), and `float64` arithmetic by exact
`ℚ` (the claims under study are about the algebraic structure of the scores,
not about rounding).
-/

set_option autoImplicit false

namespace MapService

/-- Packed RGBA image: width/height of the bounds, `Stride`, flat `Pix`
buffer given as a total byte function plus its length `len(Pix)`. -/
structure RGBAImage where
  w : ℕ
  h : ℕ
  stride : ℕ
  pixLen : ℕ
  pix : ℤ → ℕ

/-- Build an image the way `image.NewRGBA` lays it out: `Stride = 4*w`,
`len(Pix) = 4*w*h`, bytes supplied by a list (out-of-range reads return 0;
the algorithms only read inside their own bounds checks). -/
def mkImage (w h : ℕ) (bytes : List ℕ) : RGBAImage :=
  ⟨w, h, 4 * w, 4 * w * h, fun off => bytes.getD off.toNat 0⟩

/-- Alpha mask (`image.Alpha`): stride plus flat byte function. -/
structure AlphaMask where
  stride : ℕ
  pix : ℤ → ℕ

/-- An all-valid mask: every alpha byte is 255. -/
def allValidMask : AlphaMask := ⟨0, fun _ => 255⟩

/-- Probe feature sample (`ProbePoint`): local coordinates, color, saturation
and gradient magnitude.  Fields are Go `int`s. -/
structure ProbePoint where
  X : ℤ
  Y : ℤ
  R : ℤ
  G : ℤ
  B : ℤ
  Sat : ℤ
  GradMag : ℤ
deriving DecidableEq, Inhabited, Repr

/-- `TemplateProbe`: ordered point list plus the template dimensions. -/
structure TemplateProbe where
  Points : List ProbePoint
  Width : ℤ
  Height : ℤ
deriving DecidableEq, Inhabited, Repr

/-- The source's local `abs` closure on Go ints. -/
def goAbs (n : ℤ) : ℤ := if n < 0 then -n else n

/-- Integer luma `(r*3 + g*6 + b)/10` (operands are bytes, hence nonnegative,
so Go's truncated division and `ℤ` floor division agree). -/
def luma (r g b : ℤ) : ℤ := (r * 3 + g * 6 + b) / 10

/-- `math.MaxInt64` (the numeral `2^63 - 1`). -/
def maxInt64 : ℤ := 9223372036854775807

/-- `math.MaxFloat64` (exact value of the greatest finite double). -/
def maxFloat64 : ℚ := (2 ^ 53 - 1) * 2 ^ 971

/-- The index/coordinate sequence of a Go loop `for v := start; v < stop; v += step`
(for `step ≥ 1`; the degenerate `step = 0` loop never terminates in Go and is
excluded by hypothesis wherever it matters). -/
def stepRange (start stop step : ℕ) : List ℕ :=
  (List.range ((stop - start + step - 1) / step)).map (fun k => start + k * step)

/-- The points visited by `for i := 0; i < len(points); i += probeStep`. -/
def sampledPoints (points : List ProbePoint) (probeStep : ℕ) : List ProbePoint :=
  (stepRange 0 points.length probeStep).map (fun i => points.getD i default)

/-- Flat offset of probe point `p` for the candidate translation `(x, y)`:
`baseOffset + p.Y*imgStride + p.X*4` with `baseOffset = y*imgStride + x*4`. -/
def pointOff (img : RGBAImage) (x y : ℕ) (p : ProbePoint) : ℤ :=
  ((y : ℤ) * img.stride + (x : ℤ) * 4) + p.Y * img.stride + p.X * 4

/-- The per-point bounds check `!(off < 0 || off+2 >= len(imgPix))`. -/
def pointValid (img : RGBAImage) (x y : ℕ) (p : ProbePoint) : Prop :=
  0 ≤ pointOff img x y p ∧ pointOff img x y p + 2 < (img.pixLen : ℤ)

instance (img : RGBAImage) (x y : ℕ) (p : ProbePoint) :
    Decidable (pointValid img x y p) := by
  unfold pointValid; infer_instance

/-- Go's 3-way max as written in the source (`m := r; if g > m ...; if b > m ...`). -/
def goMax3 (r g b : ℤ) : ℤ :=
  let m := r
  let m := if g > m then g else m
  if b > m then b else m

/-- Go's 3-way min as written in the source. -/
def goMin3 (r g b : ℤ) : ℤ :=
  let m := r
  let m := if g < m then g else m
  if b < m then b else m

/-- Chroma tolerance `ChromaThreshold = 45`. -/
def chromaThreshold : ℤ := 45

/-- Chroma penalty weight `ChromaWeight = 15`. -/
def chromaWeight : ℤ := 15

/-- `baseDiff`: the channel-wise SAD of a probe point against map bytes. -/
def baseSadDiff (pR pG pB r g b : ℤ) : ℤ :=
  goAbs (r - pR) + goAbs (g - pG) + goAbs (b - pB)

/-- The chroma (hue-shift) penalty: `(chromaDiff - 45) * 15` past the
threshold 45, else 0. -/
def chromaPenalty (pR pG pB r g b : ℤ) : ℤ :=
  let chromaDiff := goAbs ((pR - pG) - (r - g)) + goAbs ((pB - pG) - (b - g))
  if chromaDiff > chromaThreshold then (chromaDiff - chromaThreshold) * chromaWeight else 0

/-- The saturation-mismatch penalty: `(p.Sat - mapSat) * 6` when the probe
point is saturated (`> 30`) but the map pixel is gray (`< 25`). -/
def satPenalty (pSat r g b : ℤ) : ℤ :=
  if pSat > 30 then
    let mapSat := goMax3 r g b - goMin3 r g b
    if mapSat < 25 then (pSat - mapSat) * 6 else 0
  else 0

/-- The gradient penalty of `MatchProbe` (uniform variant only): when the
probe point has an edge (`GradMag > 15`) and the corresponding in-bounds map
neighborhood is flat (`mapGradMag < 15`), add the raw gap. -/
def gradPenalty (img : RGBAImage) (x y : ℕ) (p : ProbePoint) : ℤ :=
  if p.GradMag > 15 then
    let mapX := (x : ℤ) + p.X
    let mapY := (y : ℤ) + p.Y
    if mapX > 0 ∧ mapX < (img.w : ℤ) - 1 ∧ mapY > 0 ∧ mapY < (img.h : ℤ) - 1 then
      let baseOffset := (y : ℤ) * img.stride + (x : ℤ) * 4
      let offLeft := baseOffset + p.Y * img.stride + (p.X - 1) * 4
      let offRight := baseOffset + p.Y * img.stride + (p.X + 1) * 4
      if 0 ≤ offLeft ∧ offRight + 2 < (img.pixLen : ℤ) then
        let grayLeft := luma (img.pix offLeft) (img.pix (offLeft + 1)) (img.pix (offLeft + 2))
        let grayRight := luma (img.pix offRight) (img.pix (offRight + 1)) (img.pix (offRight + 2))
        let mapGradX := goAbs (grayRight - grayLeft)
        let offUp := baseOffset + (p.Y - 1) * img.stride + p.X * 4
        let offDown := baseOffset + (p.Y + 1) * img.stride + p.X * 4
        if 0 ≤ offUp ∧ offDown + 2 < (img.pixLen : ℤ) then
          let grayUp := luma (img.pix offUp) (img.pix (offUp + 1)) (img.pix (offUp + 2))
          let grayDown := luma (img.pix offDown) (img.pix (offDown + 1)) (img.pix (offDown + 2))
          let mapGradY := goAbs (grayDown - grayUp)
          let mapGradMag := mapGradX + mapGradY
          if mapGradMag < 15 then p.GradMag - mapGradMag else 0
        else 0
      else 0
    else 0
  else 0

/-- One probe point's contribution to `currentSAD` in `MatchProbe`'s scan
(`baseDiff + penalty + satPenalty + gradPenalty`), for the candidate
translation `(x, y)`.  Only ever added when `pointValid` holds. -/
def pointContrib (img : RGBAImage) (x y : ℕ) (p : ProbePoint) : ℤ :=
  let off := pointOff img x y p
  let r : ℤ := img.pix off
  let g : ℤ := img.pix (off + 1)
  let b : ℤ := img.pix (off + 2)
  baseSadDiff p.R p.G p.B r g b + chromaPenalty p.R p.G p.B r g b
    + satPenalty p.Sat r g b + gradPenalty img x y p

/-- The inner point loop of `MatchProbe.matchRect` WITH the branch-and-bound
early exit: accumulates `(currentSAD, validCount)` over the sampled points,
stopping as soon as the running sum exceeds the threshold `t = localMinSAD`. -/
def scanBreak (img : RGBAImage) (x y : ℕ) (t : ℤ) :
    List ProbePoint → ℤ → ℕ → ℤ × ℕ
  | [], sad, cnt => (sad, cnt)
  | p :: rest, sad, cnt =>
    if pointValid img x y p then
      let sad2 := sad + pointContrib img x y p
      if sad2 > t then (sad2, cnt + 1)
      else scanBreak img x y t rest sad2 (cnt + 1)
    else scanBreak img x y t rest sad cnt

/-- The same point loop WITHOUT the early exit (the exhaustive reference the
branch-and-bound is measured against). -/
def scanFull (img : RGBAImage) (x y : ℕ) :
    List ProbePoint → ℤ → ℕ → ℤ × ℕ
  | [], sad, cnt => (sad, cnt)
  | p :: rest, sad, cnt =>
    if pointValid img x y p then
      scanFull img x y rest (sad + pointContrib img x y p) (cnt + 1)
    else scanFull img x y rest sad cnt

/-- The completed (exhaustive) `currentSAD` of a candidate translation. -/
def fullSadAt (img : RGBAImage) (points : List ProbePoint) (probeStep x y : ℕ) : ℤ :=
  (scanFull img x y (sampledPoints points probeStep) 0 0).1

/-- The number of sampled probe points with a valid in-bounds correspondence
at a candidate translation (`validCount` after a completed scan). -/
def validCountAt (img : RGBAImage) (points : List ProbePoint) (probeStep x y : ℕ) : ℕ :=
  (scanFull img x y (sampledPoints points probeStep) 0 0).2

/-- `minRequired := (len(points) * 85) / (probeStep * 100)`. -/
def minRequired (points : List ProbePoint) (probeStep : ℕ) : ℕ :=
  points.length * 85 / (probeStep * 100)

/-- `matchRect`'s running state: `localX`, `localY`, `localMinSAD`. -/
structure MState where
  x : ℕ
  y : ℕ
  sad : ℤ
deriving DecidableEq, Repr

/-- Initial state: `localMinSAD = math.MaxInt64`, position `(0, 0)`. -/
def mInit : MState := ⟨0, 0, maxInt64⟩

/-- One candidate step of `matchRect` (with early exit): scan the sampled
points against threshold `st.sad`, apply the 85% gate, then the strict
minimum update. -/
def updBreak (img : RGBAImage) (points : List ProbePoint) (probeStep : ℕ)
    (st : MState) (c : ℕ × ℕ) : MState :=
  let r := scanBreak img c.1 c.2 st.sad (sampledPoints points probeStep) 0 0
  if r.2 < minRequired points probeStep then st
  else if r.1 < st.sad then ⟨c.1, c.2, r.1⟩ else st

/-- One candidate step with the exhaustive scan instead of the pruned one. -/
def updFull (img : RGBAImage) (points : List ProbePoint) (probeStep : ℕ)
    (st : MState) (c : ℕ × ℕ) : MState :=
  let r := scanFull img c.1 c.2 (sampledPoints points probeStep) 0 0
  if r.2 < minRequired points probeStep then st
  else if r.1 < st.sad then ⟨c.1, c.2, r.1⟩ else st

/-- Candidate translations of the double loop
`for y := startY; y < endY; y += step { for x := startX; x < endX; x += step }`,
in visit order. -/
def candList (startX endX startY endY step : ℕ) : List (ℕ × ℕ) :=
  (stepRange startY endY step).flatMap
    (fun y => (stepRange startX endX step).map (fun x => (x, y)))

/-- `matchRect(startX, endX, startY, endY)` as in the source (pruned scan). -/
def matchRect (img : RGBAImage) (points : List ProbePoint) (step probeStep : ℕ)
    (startX endX startY endY : ℕ) : MState :=
  (candList startX endX startY endY step).foldl (updBreak img points probeStep) mInit

/-- `matchRect` with the early exit removed (exhaustive variant). -/
def matchRectFull (img : RGBAImage) (points : List ProbePoint) (step probeStep : ℕ)
    (startX endX startY endY : ℕ) : MState :=
  (candList startX endX startY endY step).foldl (updFull img points probeStep) mInit

/-- `calcAvgDiff(sad, count) = float64(sad) / float64(count*3)` (0 when
`count = 0`). -/
def calcAvgDiff (sad : ℤ) (count : ℕ) : ℚ :=
  if count = 0 then 0 else (sad : ℚ) / ((count : ℚ) * 3)

/-- The candidates the serial (`useConcurrency = false`) call examines:
`matchRect(0, maxX, 0, maxY)`. -/
def serialCandidates (img : RGBAImage) (probe : TemplateProbe) (step : ℕ) : List (ℕ × ℕ) :=
  candList 0 ((img.w : ℤ) - probe.Width).toNat 0 ((img.h : ℤ) - probe.Height).toNat step

/-- `MatchProbe(img, probe, step, probeStep, useConcurrency=false)`. -/
def MatchProbe (img : RGBAImage) (probe : TemplateProbe) (step probeStep : ℕ) :
    ℕ × ℕ × ℚ :=
  let maxX : ℤ := (img.w : ℤ) - probe.Width
  let maxY : ℤ := (img.h : ℤ) - probe.Height
  if maxX ≤ 0 ∨ maxY ≤ 0 then (0, 0, 0)
  else
    let validPixels := probe.Points.length / probeStep
    if validPixels = 0 then (0, 0, 0)
    else
      let r := matchRect img probe.Points step probeStep 0 maxX.toNat 0 maxY.toNat
      (r.x, r.y, calcAvgDiff r.sad validPixels)

/-- `rowsPerWorker := (maxY/step + 1 + numWorkers - 1) / numWorkers` with 8
workers. -/
def rowsPerWorker (maxY step : ℕ) : ℕ := (maxY / step + 1 + 8 - 1) / 8

/-- The row band (`yStart`, `yEnd`) worker `i` scans. -/
def bandRange (maxY step i : ℕ) : ℕ × ℕ :=
  let rpw := rowsPerWorker maxY step
  let yStart := i * rpw * step
  let yEnd0 := (i + 1) * rpw * step
  (yStart, if yEnd0 > maxY then maxY + 1 else yEnd0)

/-- Worker `i`'s `matchRect(0, maxX, yStart, yEnd)` result. -/
def bandResult (img : RGBAImage) (points : List ProbePoint) (step probeStep : ℕ)
    (maxX maxY : ℕ) (i : ℕ) : MState :=
  matchRect img points step probeStep 0 maxX (bandRange maxY step i).1 (bandRange maxY step i).2

/-- The eight band results in worker order. -/
def bandResults (img : RGBAImage) (points : List ProbePoint) (step probeStep : ℕ)
    (maxX maxY : ℕ) : List MState :=
  (List.range 8).map (bandResult img points step probeStep maxX maxY)

/-- The mutex-guarded fan-in update: a worker result is accepted only when
strictly below the running global minimum (`if lSad < globalMinSAD`). -/
def mergeM (acc b : MState) : MState := if b.sad < acc.sad then b else acc

/-- The fan-in reduction over the band results.  The fold is taken in worker
order; every theorem using it either holds for an arbitrary result list or
exhibits a unique strict minimum, so goroutine arrival order is immaterial. -/
def fanIn (bands : List MState) : MState :=
  bands.foldl mergeM mInit

/-- `MatchProbe(img, probe, step, probeStep, useConcurrency=true)`, with the
nondeterministic reduction modeled by `fanIn`. -/
def MatchProbeConc (img : RGBAImage) (probe : TemplateProbe) (step probeStep : ℕ) :
    ℕ × ℕ × ℚ :=
  let maxX : ℤ := (img.w : ℤ) - probe.Width
  let maxY : ℤ := (img.h : ℤ) - probe.Height
  if maxX ≤ 0 ∨ maxY ≤ 0 then (0, 0, 0)
  else
    let validPixels := probe.Points.length / probeStep
    if validPixels = 0 then (0, 0, 0)
    else
      let g := fanIn (bandResults img probe.Points step probeStep maxX.toNat maxY.toNat)
      (g.x, g.y, calcAvgDiff g.sad validPixels)

/-- Edge weight `w = (gradMag/255)^gamma`, floored at `0.1`
(`if w < 0.1 { w = 0.1 }`).  `gamma` is taken as a natural exponent (the
spec's recommended values are 1, 2, 3); `float64` powers are modeled exactly
on `ℚ`. -/
def weightW (p : ProbePoint) (gamma : ℕ) : ℚ :=
  let w := ((p.GradMag : ℚ) / 255) ^ gamma
  if w < 1 / 10 then 1 / 10 else w

/-- One probe point's un-weighted diff in `MatchProbeWeighted`'s scan:
`baseDiff + penalty + satPenalty` — no gradient penalty in this variant. -/
def wPointDiff (img : RGBAImage) (x y : ℕ) (p : ProbePoint) : ℤ :=
  let off := pointOff img x y p
  let r : ℤ := img.pix off
  let g : ℤ := img.pix (off + 1)
  let b : ℤ := img.pix (off + 2)
  baseSadDiff p.R p.G p.B r g b + chromaPenalty p.R p.G p.B r g b + satPenalty p.Sat r g b

/-- The inner point loop of `MatchProbeWeighted.matchRect` (no early exit):
accumulates `(weightedSAD, localTotalWeight, validCount)`. -/
def scanW (img : RGBAImage) (x y gamma : ℕ) :
    List ProbePoint → ℚ → ℚ → ℕ → ℚ × ℚ × ℕ
  | [], wsad, wtot, cnt => (wsad, wtot, cnt)
  | p :: rest, wsad, wtot, cnt =>
    if pointValid img x y p then
      let d : ℚ := (wPointDiff img x y p : ℤ)
      let w := weightW p gamma
      scanW img x y gamma rest (wsad + d * w) (wtot + w) (cnt + 1)
    else scanW img x y gamma rest wsad wtot cnt

/-- `Σ diff·w` over the valid sampled points of a candidate. -/
def weightedSadAt (img : RGBAImage) (points : List ProbePoint) (probeStep gamma x y : ℕ) : ℚ :=
  (scanW img x y gamma (sampledPoints points probeStep) 0 0 0).1

/-- `Σ w` over the valid sampled points of a candidate. -/
def weightedTotAt (img : RGBAImage) (points : List ProbePoint) (probeStep gamma x y : ℕ) : ℚ :=
  (scanW img x y gamma (sampledPoints points probeStep) 0 0 0).2.1

/-- `MatchProbeWeighted.matchRect`'s running state. -/
structure WState where
  x : ℕ
  y : ℕ
  m : ℚ
deriving DecidableEq, Repr

/-- Initial state: `localMinWeightedSAD = math.MaxFloat64`, position `(0, 0)`. -/
def wInit : WState := ⟨0, 0, maxFloat64⟩

/-- One candidate step of the weighted `matchRect`: 85% gate, then the
`localTotalWeight > 0.001` normalization guard, then strict-minimum update of
`normalizedSAD = weightedSAD / localTotalWeight`. -/
def updW (img : RGBAImage) (points : List ProbePoint) (probeStep gamma : ℕ)
    (st : WState) (c : ℕ × ℕ) : WState :=
  let r := scanW img c.1 c.2 gamma (sampledPoints points probeStep) 0 0 0
  if r.2.2 < minRequired points probeStep then st
  else if r.2.1 > 1 / 1000 then
    let n := r.1 / r.2.1
    if n < st.m then ⟨c.1, c.2, n⟩ else st
  else st

/-- `MatchProbeWeighted.matchRect`: scans its rectangle and returns
`(0, 0, 0)` when nothing was accepted, else `(x, y, localMinWeightedSAD/3)`. -/
def matchRectW (img : RGBAImage) (points : List ProbePoint) (step probeStep gamma : ℕ)
    (startX endX startY endY : ℕ) : ℕ × ℕ × ℚ :=
  let st := (candList startX endX startY endY step).foldl (updW img points probeStep gamma) wInit
  if st.m = maxFloat64 then (0, 0, 0) else (st.x, st.y, st.m / 3)

/-- `MatchProbeWeighted(..., useConcurrency=false)`. -/
def MatchProbeWeighted (img : RGBAImage) (probe : TemplateProbe) (step probeStep gamma : ℕ) :
    ℕ × ℕ × ℚ :=
  let maxX : ℤ := (img.w : ℤ) - probe.Width
  let maxY : ℤ := (img.h : ℤ) - probe.Height
  if maxX ≤ 0 ∨ maxY ≤ 0 then (0, 0, 0)
  else
    let sampled := sampledPoints probe.Points probeStep
    let totalWeight := sampled.foldl (fun acc p => acc + weightW p gamma) 0
    let validPixels := sampled.length
    if validPixels = 0 ∨ totalWeight < 1 / 1000 then (0, 0, 0)
    else matchRectW img probe.Points step probeStep gamma 0 maxX.toNat 0 maxY.toNat

/-- Worker `i`'s weighted band result. -/
def bandResultW (img : RGBAImage) (points : List ProbePoint) (step probeStep gamma : ℕ)
    (maxX maxY : ℕ) (i : ℕ) : ℕ × ℕ × ℚ :=
  matchRectW img points step probeStep gamma 0 maxX (bandRange maxY step i).1 (bandRange maxY step i).2

/-- The eight weighted band results in worker order. -/
def bandResultsW (img : RGBAImage) (points : List ProbePoint) (step probeStep gamma : ℕ)
    (maxX maxY : ℕ) : List (ℕ × ℕ × ℚ) :=
  (List.range 8).map (bandResultW img points step probeStep gamma maxX maxY)

/-- The weighted fan-in update: a band result is accepted only when
`lSad > 0 && lSad < globalMinWeightedSAD`. -/
def fanInWStep (acc : WState) (b : ℕ × ℕ × ℚ) : WState :=
  if 0 < b.2.2 ∧ b.2.2 < acc.m then ⟨b.1, b.2.1, b.2.2⟩ else acc

/-- The weighted fan-in reduction over the band results (worker order; the
theorems about it hold for arbitrary result lists, hence for any arrival
order). -/
def fanInW (bands : List (ℕ × ℕ × ℚ)) : WState :=
  bands.foldl fanInWStep wInit

/-- `MatchProbeWeighted(..., useConcurrency=true)` with the fan-in modeled in
worker order (the properties proved about it hold for any arrival order; see
the fold lemmas, which are stated for arbitrary result lists). -/
def MatchProbeWeightedConc (img : RGBAImage) (probe : TemplateProbe)
    (step probeStep gamma : ℕ) : ℕ × ℕ × ℚ :=
  let maxX : ℤ := (img.w : ℤ) - probe.Width
  let maxY : ℤ := (img.h : ℤ) - probe.Height
  if maxX ≤ 0 ∨ maxY ≤ 0 then (0, 0, 0)
  else
    let sampled := sampledPoints probe.Points probeStep
    let totalWeight := sampled.foldl (fun acc p => acc + weightW p gamma) 0
    let validPixels := sampled.length
    if validPixels = 0 ∨ totalWeight < 1 / 1000 then (0, 0, 0)
    else
      let g := fanInW (bandResultsW img probe.Points step probeStep gamma maxX.toNat maxY.toNat)
      if g.m = maxFloat64 then (0, 0, 0) else (g.x, g.y, g.m)

/-- `ComputeZScore(rank1Score, allScores)`, parametrized by the square-root
function (`math.Sqrt`); theorems assume only `sqrtQ 0 = 0` of it. -/
def ComputeZScore (sqrtQ : ℚ → ℚ) (rank1Score : ℚ) (allScores : List ℚ) : ℚ :=
  if allScores.length < 2 then 0
  else
    let sum := allScores.foldl (fun acc s => acc + s) 0
    let mean := sum / (allScores.length : ℚ)
    let varianceSum := allScores.foldl (fun acc s => acc + (s - mean) * (s - mean)) 0
    let stdDev := sqrtQ (varianceSum / (allScores.length : ℚ))
    if stdDev < 1 / 1000 then 0
    else (mean - rank1Score) / stdDev

/-- The running sum `sum += s` over the scores. -/
def sumOf (scores : List ℚ) : ℚ := scores.foldl (fun acc s => acc + s) 0

/-- `mean := sum / float64(len(allScores))`. -/
def meanOf (scores : List ℚ) : ℚ := sumOf scores / (scores.length : ℚ)

/-- `varianceSum += (s - mean)^2` over the scores. -/
def varianceSumOf (scores : List ℚ) : ℚ :=
  scores.foldl (fun acc s => acc + (s - meanOf scores) * (s - meanOf scores)) 0

/-- The pixel a single builder iteration appends, if any: the mask test, the
transparency test, the HUD-icon filter, then saturation and gradient
extraction (`UpdateFromMinimap` loop body at interior pixel `(x, y)`). -/
def probePointAt (img : RGBAImage) (mask : AlphaMask) (x y : ℕ) : List ProbePoint :=
  if mask.pix ((y : ℤ) * mask.stride + x) = 0 then []
  else
    let off : ℤ := (y : ℤ) * img.stride + (x : ℤ) * 4
    if img.pix (off + 3) = 0 then []
    else
      let r : ℤ := img.pix off
      let g : ℤ := img.pix (off + 1)
      let b : ℤ := img.pix (off + 2)
      let minRG := if g < r then g else r
      let maxRG := if g > r then g else r
      let isIcon := (r > 100 ∧ g > 100 ∧ minRG - b > 40) ∨ (b > 100 ∧ b - maxRG > 40)
      if isIcon then []
      else
        let sat := goMax3 r g b - goMin3 r g b
        let offLeft := (y : ℤ) * img.stride + ((x : ℤ) - 1) * 4
        let offRight := (y : ℤ) * img.stride + ((x : ℤ) + 1) * 4
        let grayLeft := luma (img.pix offLeft) (img.pix (offLeft + 1)) (img.pix (offLeft + 2))
        let grayRight := luma (img.pix offRight) (img.pix (offRight + 1)) (img.pix (offRight + 2))
        let gradX := grayRight - grayLeft
        let offUp := ((y : ℤ) - 1) * img.stride + (x : ℤ) * 4
        let offDown := ((y : ℤ) + 1) * img.stride + (x : ℤ) * 4
        let grayUp := luma (img.pix offUp) (img.pix (offUp + 1)) (img.pix (offUp + 2))
        let grayDown := luma (img.pix offDown) (img.pix (offDown + 1)) (img.pix (offDown + 2))
        let gradY := grayDown - grayUp
        [⟨x, y, r, g, b, sat, goAbs gradX + goAbs gradY⟩]

/-- `TemplateProbe.UpdateFromMinimap` on a fresh probe: scan the interior
pixels (`1 ≤ x < w-1`, `1 ≤ y < h-1`) in row-major order. -/
def UpdateFromMinimap (img : RGBAImage) (mask : AlphaMask) : TemplateProbe :=
  { Width := (img.w : ℤ), Height := (img.h : ℤ),
    Points := (stepRange 1 (img.h - 1) 1).flatMap
      (fun y => (stepRange 1 (img.w - 1) 1).flatMap (fun x => probePointAt img mask x y)) }

/-- `copySubImage(src, Rect(ox, oy, ox+w, oy+h))`: a fresh `w×h` RGBA buffer
(stride `4*w`) whose row `y` is the byte range starting at
`src.PixOffset(ox, oy) + y*src.Stride`.  The pixel function below is exactly
that row copy, expressed per offset. -/
def copySubImage (src : RGBAImage) (ox oy w h : ℕ) : RGBAImage :=
  { w := w, h := h, stride := 4 * w, pixLen := 4 * w * h,
    pix := fun off =>
      src.pix (((oy : ℤ) * src.stride + (ox : ℤ) * 4)
        + (off / (4 * (w : ℤ))) * src.stride + off % (4 * (w : ℤ))) }

/-- The probe point `UpdateFromMinimap` stores at interior crop pixel
`(x, y)` of the crop `img[ox:ox+pw, oy:oy+ph]`, with every byte read
expressed through the parent image's buffer (row `oy+y`, column `ox+x`,
stride offsets written in the same shape `matchRect`'s scoring uses at the
candidate translation `(ox, oy)`). -/
def selfPoint (img : RGBAImage) (ox oy x y : ℕ) : ProbePoint :=
  let base : ℤ := (oy : ℤ) * img.stride + (ox : ℤ) * 4
  let off : ℤ := base + (y : ℤ) * img.stride + (x : ℤ) * 4
  let r : ℤ := img.pix off
  let g : ℤ := img.pix (off + 1)
  let b : ℤ := img.pix (off + 2)
  let offLeft := base + (y : ℤ) * img.stride + ((x : ℤ) - 1) * 4
  let offRight := base + (y : ℤ) * img.stride + ((x : ℤ) + 1) * 4
  let offUp := base + ((y : ℤ) - 1) * img.stride + (x : ℤ) * 4
  let offDown := base + ((y : ℤ) + 1) * img.stride + (x : ℤ) * 4
  ⟨x, y, r, g, b, goMax3 r g b - goMin3 r g b,
    goAbs (luma (img.pix offRight) (img.pix (offRight + 1)) (img.pix (offRight + 2))
      - luma (img.pix offLeft) (img.pix (offLeft + 1)) (img.pix (offLeft + 2)))
    + goAbs (luma (img.pix offDown) (img.pix (offDown + 1)) (img.pix (offDown + 2))
      - luma (img.pix offUp) (img.pix (offUp + 1)) (img.pix (offUp + 2)))⟩

/-! ### Concrete fixtures used by the claim theorems -/

/-- A 3×3 black image with one gray pixel at `(0, 1)` (bytes 12-14), laid
out as `image.NewRGBA` does (stride 12, 36 bytes, alpha bytes 255). -/
def cImgA : RGBAImage :=
  ⟨3, 3, 12, 36, fun off =>
    if off = 12 ∨ off = 13 ∨ off = 14 then 100 else if off % 4 = 3 then 255 else 0⟩

/-- A 2×2 probe with a single point expecting gray 100 at its origin. -/
def cProbeA : TemplateProbe := ⟨[⟨0, 0, 100, 100, 100, 0, 0⟩], 2, 2⟩

/-- A 3×3 all-black (alpha 255) image. -/
def cImgB : RGBAImage :=
  ⟨3, 3, 12, 36, fun off => if off % 4 = 3 then 255 else 0⟩

/-- Three identical points; with `probeStep = 2` the sampled indices are 0
and 2 (two points), while `validPixels = len/probeStep = 1`. -/
def cProbeB4 : TemplateProbe :=
  ⟨[⟨0, 0, 100, 100, 100, 0, 0⟩, ⟨0, 0, 100, 100, 100, 0, 0⟩,
    ⟨0, 0, 100, 100, 100, 0, 0⟩], 2, 2⟩

/-- Ten points: eight valid at the origin and two far out of bounds
(`Y = 100`), so every candidate has 80% coverage. -/
def cProbeB5 : TemplateProbe :=
  ⟨List.replicate 8 (⟨0, 0, 0, 0, 0, 0, 0⟩ : ProbePoint)
    ++ List.replicate 2 (⟨0, 100, 0, 0, 0, 0, 0⟩ : ProbePoint), 2, 2⟩

/-- A 4×3 black image with a gray pixel at `(1, 0)`: the perfect offset for
`cProbeC6` sits at `x = imgW - probeW = 1`, which the scan never visits. -/
def cImgC6 : RGBAImage :=
  ⟨4, 3, 16, 48, fun off =>
    if off = 4 ∨ off = 5 ∨ off = 6 then 100 else if off % 4 = 3 then 255 else 0⟩

/-- A 3×2 probe matching `cImgC6` perfectly at `(1, 0)`. -/
def cProbeC6 : TemplateProbe := ⟨[⟨0, 0, 100, 100, 100, 0, 0⟩], 3, 2⟩

/-- A 5×4 image with a distinctive smooth pattern (pixel `(x, y)` has color
`(10(x+1), 10(y+1), 5(x+y))`, opaque). -/
def cImgD : RGBAImage := mkImage 5 4
  ((List.range 4).flatMap (fun y => (List.range 5).flatMap
    (fun x => [10 * (x + 1), 10 * (y + 1), 5 * (x + y), 255])))

/-- The probe built by `UpdateFromMinimap` from the crop
`cImgD[1:4, 0:3]` with an all-valid mask. -/
def cProbeD : TemplateProbe := UpdateFromMinimap (copySubImage cImgD 1 0 3 3) allValidMask

/-- The probe built by `UpdateFromMinimap` from the flush-right crop
`cImgD[2:5, 0:3]` with an all-valid mask: its origin `x = 2` satisfies
`x = imgW - probeW`, a translation the serial scan never visits. -/
def cProbeD2 : TemplateProbe := UpdateFromMinimap (copySubImage cImgD 2 0 3 3) allValidMask

/-- A probe wider than `cImgA` (degenerate geometry). -/
def cProbeWide : TemplateProbe := ⟨[⟨0, 0, 0, 0, 0, 0, 0⟩], 4, 2⟩

/-- A probe with no points. -/
def cProbeEmpty : TemplateProbe := ⟨[], 2, 2⟩

/-- A probe that matches `cImgB` perfectly at the origin. -/
def cProbeZero : TemplateProbe := ⟨[⟨0, 0, 0, 0, 0, 0, 0⟩], 2, 2⟩

/-! ### Nonnegativity of the scoring pieces -/

theorem goAbs_nonneg (n : ℤ) : 0 ≤ goAbs n := by
  unfold goAbs; split <;> omega

theorem baseSadDiff_nonneg (pR pG pB r g b : ℤ) : 0 ≤ baseSadDiff pR pG pB r g b := by
  have h1 := goAbs_nonneg (r - pR)
  have h2 := goAbs_nonneg (g - pG)
  have h3 := goAbs_nonneg (b - pB)
  unfold baseSadDiff; omega

theorem chromaPenalty_nonneg (pR pG pB r g b : ℤ) : 0 ≤ chromaPenalty pR pG pB r g b := by
  simp only [chromaPenalty, chromaThreshold, chromaWeight]
  split <;> omega

theorem satPenalty_nonneg (pSat r g b : ℤ) : 0 ≤ satPenalty pSat r g b := by
  simp only [satPenalty]
  split_ifs <;> omega

theorem gradPenalty_nonneg (img : RGBAImage) (x y : ℕ) (p : ProbePoint) :
    0 ≤ gradPenalty img x y p := by
  simp only [gradPenalty]
  split_ifs <;> omega

/-- Every sampled point's contribution in `MatchProbe`'s scan is nonnegative. -/
theorem pointContrib_nonneg (img : RGBAImage) (x y : ℕ) (p : ProbePoint) :
    0 ≤ pointContrib img x y p := by
  have h1 := baseSadDiff_nonneg p.R p.G p.B
  have h2 := chromaPenalty_nonneg p.R p.G p.B
  have h3 := satPenalty_nonneg p.Sat
  have h4 := gradPenalty_nonneg img x y p
  simp only [pointContrib]
  have h1a := h1 (img.pix (pointOff img x y p)) (img.pix (pointOff img x y p + 1))
    (img.pix (pointOff img x y p + 2))
  have h2a := h2 (img.pix (pointOff img x y p)) (img.pix (pointOff img x y p + 1))
    (img.pix (pointOff img x y p + 2))
  have h3a := h3 (img.pix (pointOff img x y p)) (img.pix (pointOff img x y p + 1))
    (img.pix (pointOff img x y p + 2))
  omega

theorem wPointDiff_nonneg (img : RGBAImage) (x y : ℕ) (p : ProbePoint) :
    0 ≤ wPointDiff img x y p := by
  have h1 := baseSadDiff_nonneg p.R p.G p.B (img.pix (pointOff img x y p))
    (img.pix (pointOff img x y p + 1)) (img.pix (pointOff img x y p + 2))
  have h2 := chromaPenalty_nonneg p.R p.G p.B (img.pix (pointOff img x y p))
    (img.pix (pointOff img x y p + 1)) (img.pix (pointOff img x y p + 2))
  have h3 := satPenalty_nonneg p.Sat (img.pix (pointOff img x y p))
    (img.pix (pointOff img x y p + 1)) (img.pix (pointOff img x y p + 2))
  simp only [wPointDiff]
  omega

/-! ### The pruned scan versus the exhaustive scan -/

theorem scanFull_fst_mono (img : RGBAImage) (x y : ℕ) (pts : List ProbePoint) :
    ∀ sad : ℤ, ∀ cnt : ℕ, sad ≤ (scanFull img x y pts sad cnt).1 := by
  induction pts with
  | nil => intro sad cnt; simp [scanFull]
  | cons p rest ih =>
    intro sad cnt
    simp only [scanFull]
    split
    · have h1 := pointContrib_nonneg img x y p
      have h2 := ih (sad + pointContrib img x y p) (cnt + 1)
      omega
    · exact ih sad cnt

/-- The early-exit scan either completes (and then equals the exhaustive
scan), or stops with a running sum already above the threshold — in which
case the exhaustive sum is at least as large. -/
theorem scanBreak_spec (img : RGBAImage) (x y : ℕ) (t : ℤ) (pts : List ProbePoint) :
    ∀ sad : ℤ, ∀ cnt : ℕ,
      scanBreak img x y t pts sad cnt = scanFull img x y pts sad cnt ∨
      (t < (scanBreak img x y t pts sad cnt).1 ∧
        (scanBreak img x y t pts sad cnt).1 ≤ (scanFull img x y pts sad cnt).1) := by
  induction pts with
  | nil => intro sad cnt; left; rfl
  | cons p rest ih =>
    intro sad cnt
    by_cases hv : pointValid img x y p
    · simp only [scanBreak, scanFull, if_pos hv]
      by_cases hb : sad + pointContrib img x y p > t
      · right
        rw [if_pos hb]
        exact ⟨hb, scanFull_fst_mono img x y rest _ _⟩
      · rw [if_neg hb]
        exact ih _ _
    · simp only [scanBreak, scanFull, if_neg hv]
      exact ih _ _

/-- One pruned candidate step equals one exhaustive candidate step: a broken
scan never updates the running minimum (its sum already exceeds it), and an
unbroken scan is the exhaustive scan. -/
theorem updBreak_eq_updFull (img : RGBAImage) (pts : List ProbePoint) (pstep : ℕ)
    (st : MState) (c : ℕ × ℕ) :
    updBreak img pts pstep st c = updFull img pts pstep st c := by
  simp only [updBreak, updFull]
  rcases scanBreak_spec img c.1 c.2 st.sad (sampledPoints pts pstep) 0 0 with h | ⟨h1, h2⟩
  · rw [h]
  · split_ifs <;> first | rfl | (exfalso; omega)

/-- The pruned rectangle scan equals the exhaustive rectangle scan. -/
theorem matchRect_eq_full (img : RGBAImage) (pts : List ProbePoint)
    (step pstep sx ex sy ey : ℕ) :
    matchRect img pts step pstep sx ex sy ey = matchRectFull img pts step pstep sx ex sy ey := by
  unfold matchRect matchRectFull
  have h : updBreak img pts pstep = updFull img pts pstep :=
    funext fun st => funext fun c => updBreak_eq_updFull img pts pstep st c
  rw [h]

/-! ### Fold lemmas for the exhaustive scan -/

theorem updFull_cases (img : RGBAImage) (pts : List ProbePoint) (pstep : ℕ)
    (st : MState) (c : ℕ × ℕ) :
    updFull img pts pstep st c = st ∨
    (updFull img pts pstep st c = ⟨c.1, c.2, fullSadAt img pts pstep c.1 c.2⟩ ∧
      minRequired pts pstep ≤ validCountAt img pts pstep c.1 c.2 ∧
      fullSadAt img pts pstep c.1 c.2 < st.sad) := by
  simp only [updFull, fullSadAt, validCountAt]
  split_ifs with h1 h2
  · left; rfl
  · right; exact ⟨rfl, by omega, h2⟩
  · left; rfl

theorem updFull_sad_le (img : RGBAImage) (pts : List ProbePoint) (pstep : ℕ)
    (st : MState) (c : ℕ × ℕ) :
    (updFull img pts pstep st c).sad ≤ st.sad := by
  rcases updFull_cases img pts pstep st c with h | ⟨h, _, h3⟩
  · rw [h]
  · rw [h]; exact le_of_lt h3

theorem updFull_sad_le_score (img : RGBAImage) (pts : List ProbePoint) (pstep : ℕ)
    (st : MState) (c : ℕ × ℕ)
    (hg : minRequired pts pstep ≤ validCountAt img pts pstep c.1 c.2) :
    (updFull img pts pstep st c).sad ≤ fullSadAt img pts pstep c.1 c.2 := by
  simp only [updFull, fullSadAt, validCountAt] at *
  split_ifs with h1 h2
  · omega
  · simp
  · omega

theorem matchFold_sad_mono (img : RGBAImage) (pts : List ProbePoint) (pstep : ℕ)
    (l : List (ℕ × ℕ)) :
    ∀ st : MState, (l.foldl (updFull img pts pstep) st).sad ≤ st.sad := by
  induction l with
  | nil => intro st; simp
  | cons c l ih =>
    intro st
    calc (l.foldl (updFull img pts pstep) (updFull img pts pstep st c)).sad
        ≤ (updFull img pts pstep st c).sad := ih _
      _ ≤ st.sad := updFull_sad_le img pts pstep st c

/-- The fold either never updates, or ends at some gate-passing candidate of
the list, carrying that candidate's exhaustive score. -/
theorem matchFold_mem (img : RGBAImage) (pts : List ProbePoint) (pstep : ℕ)
    (l : List (ℕ × ℕ)) :
    ∀ st : MState,
      l.foldl (updFull img pts pstep) st = st ∨
      ∃ c ∈ l, l.foldl (updFull img pts pstep) st =
          ⟨c.1, c.2, fullSadAt img pts pstep c.1 c.2⟩ ∧
        minRequired pts pstep ≤ validCountAt img pts pstep c.1 c.2 := by
  induction l with
  | nil => intro st; left; rfl
  | cons c l ih =>
    intro st
    rcases ih (updFull img pts pstep st c) with h | ⟨c2, hc2, h, hg⟩
    · rcases updFull_cases img pts pstep st c with h2 | ⟨h2, hg, _⟩
      · left; simpa [h2] using h
      · right
        exact ⟨c, List.mem_cons_self c l, by simpa [h2] using h, hg⟩
    · right
      exact ⟨c2, List.mem_cons_of_mem c hc2, h, hg⟩

/-- The final running minimum is below every gate-passing candidate's
exhaustive score. -/
theorem matchFold_min (img : RGBAImage) (pts : List ProbePoint) (pstep : ℕ)
    (l : List (ℕ × ℕ)) :
    ∀ st : MState, ∀ c ∈ l, minRequired pts pstep ≤ validCountAt img pts pstep c.1 c.2 →
      (l.foldl (updFull img pts pstep) st).sad ≤ fullSadAt img pts pstep c.1 c.2 := by
  induction l with
  | nil => intro st c hc; exact absurd hc (List.not_mem_nil c)
  | cons c0 l ih =>
    intro st c hc hg
    rcases List.mem_cons.mp hc with rfl | hc2
    · calc (l.foldl (updFull img pts pstep) (updFull img pts pstep st c)).sad
          ≤ (updFull img pts pstep st c).sad := matchFold_sad_mono img pts pstep l _
        _ ≤ fullSadAt img pts pstep c.1 c.2 := updFull_sad_le_score img pts pstep st c hg
    · exact ih _ c hc2 hg

/-! ### Weighted-scan lemmas -/

theorem weightW_ge (p : ProbePoint) (gamma : ℕ) : 1 / 10 ≤ weightW p gamma := by
  simp only [weightW]
  split <;> linarith

theorem weightW_pos (p : ProbePoint) (gamma : ℕ) : 0 < weightW p gamma :=
  lt_of_lt_of_le (by norm_num) (weightW_ge p gamma)

theorem scanW_cnt_eq (img : RGBAImage) (x y gamma : ℕ) (pts : List ProbePoint) :
    ∀ wsad wtot : ℚ, ∀ cnt : ℕ, ∀ sad : ℤ,
      (scanW img x y gamma pts wsad wtot cnt).2.2 = (scanFull img x y pts sad cnt).2 := by
  induction pts with
  | nil => intro wsad wtot cnt sad; rfl
  | cons p rest ih =>
    intro wsad wtot cnt sad
    simp only [scanW, scanFull]
    split
    · exact ih _ _ _ _
    · exact ih _ _ _ _

theorem scanW_wsad_nonneg (img : RGBAImage) (x y gamma : ℕ) (pts : List ProbePoint) :
    ∀ wsad wtot : ℚ, ∀ cnt : ℕ, 0 ≤ wsad → 0 ≤ (scanW img x y gamma pts wsad wtot cnt).1 := by
  induction pts with
  | nil => intro wsad wtot cnt h; exact h
  | cons p rest ih =>
    intro wsad wtot cnt h
    simp only [scanW]
    split
    · refine ih _ _ _ ?_
      have h1 : (0 : ℚ) ≤ ((wPointDiff img x y p : ℤ) : ℚ) := by
        exact_mod_cast wPointDiff_nonneg img x y p
      have h2 := weightW_pos p gamma
      nlinarith
    · exact ih _ _ _ h

theorem scanW_wtot_nonneg (img : RGBAImage) (x y gamma : ℕ) (pts : List ProbePoint) :
    ∀ wsad wtot : ℚ, ∀ cnt : ℕ, 0 ≤ wtot → 0 ≤ (scanW img x y gamma pts wsad wtot cnt).2.1 := by
  induction pts with
  | nil => intro wsad wtot cnt h; exact h
  | cons p rest ih =>
    intro wsad wtot cnt h
    simp only [scanW]
    split
    · refine ih _ _ _ ?_
      have h2 := weightW_pos p gamma
      linarith
    · exact ih _ _ _ h

theorem weightedRatio_nonneg (img : RGBAImage) (pts : List ProbePoint)
    (pstep gamma x y : ℕ) :
    0 ≤ weightedSadAt img pts pstep gamma x y / weightedTotAt img pts pstep gamma x y := by
  apply div_nonneg
  · exact scanW_wsad_nonneg img x y gamma (sampledPoints pts pstep) 0 0 0 le_rfl
  · exact scanW_wtot_nonneg img x y gamma (sampledPoints pts pstep) 0 0 0 le_rfl

theorem updW_cases (img : RGBAImage) (pts : List ProbePoint) (pstep gamma : ℕ)
    (st : WState) (c : ℕ × ℕ) :
    updW img pts pstep gamma st c = st ∨
    (updW img pts pstep gamma st c =
        ⟨c.1, c.2, weightedSadAt img pts pstep gamma c.1 c.2
          / weightedTotAt img pts pstep gamma c.1 c.2⟩ ∧
      minRequired pts pstep ≤ validCountAt img pts pstep c.1 c.2 ∧
      1 / 1000 < weightedTotAt img pts pstep gamma c.1 c.2 ∧
      weightedSadAt img pts pstep gamma c.1 c.2
          / weightedTotAt img pts pstep gamma c.1 c.2 < st.m) := by
  have hcnt := scanW_cnt_eq img c.1 c.2 gamma (sampledPoints pts pstep) 0 0 0 0
  simp only [updW, weightedSadAt, weightedTotAt, validCountAt]
  split_ifs with h1 h2 h3
  · left; rfl
  · right
    refine ⟨rfl, ?_, h2, h3⟩
    rw [← hcnt]; omega
  · left; rfl
  · left; rfl

theorem updW_m_le (img : RGBAImage) (pts : List ProbePoint) (pstep gamma : ℕ)
    (st : WState) (c : ℕ × ℕ) :
    (updW img pts pstep gamma st c).m ≤ st.m := by
  rcases updW_cases img pts pstep gamma st c with h | ⟨h, _, _, h4⟩
  · rw [h]
  · rw [h]; exact le_of_lt h4

theorem wFold_m_mono (img : RGBAImage) (pts : List ProbePoint) (pstep gamma : ℕ)
    (l : List (ℕ × ℕ)) :
    ∀ st : WState, (l.foldl (updW img pts pstep gamma) st).m ≤ st.m := by
  induction l with
  | nil => intro st; simp
  | cons c l ih =>
    intro st
    calc (l.foldl (updW img pts pstep gamma) (updW img pts pstep gamma st c)).m
        ≤ (updW img pts pstep gamma st c).m := ih _
      _ ≤ st.m := updW_m_le img pts pstep gamma st c

/-- The weighted fold either never updates or records a gate-passing,
weight-normalizable candidate of the list, whose normalized score is strictly
below the starting minimum. -/
theorem wFold_mem (img : RGBAImage) (pts : List ProbePoint) (pstep gamma : ℕ)
    (l : List (ℕ × ℕ)) :
    ∀ st : WState,
      l.foldl (updW img pts pstep gamma) st = st ∨
      ∃ c ∈ l, l.foldl (updW img pts pstep gamma) st =
          ⟨c.1, c.2, weightedSadAt img pts pstep gamma c.1 c.2
            / weightedTotAt img pts pstep gamma c.1 c.2⟩ ∧
        minRequired pts pstep ≤ validCountAt img pts pstep c.1 c.2 ∧
        1 / 1000 < weightedTotAt img pts pstep gamma c.1 c.2 ∧
        weightedSadAt img pts pstep gamma c.1 c.2
            / weightedTotAt img pts pstep gamma c.1 c.2 < st.m := by
  induction l with
  | nil => intro st; left; rfl
  | cons c l ih =>
    intro st
    rcases ih (updW img pts pstep gamma st c) with h | ⟨c2, hc2, h, hg, ht, hlt⟩
    · rcases updW_cases img pts pstep gamma st c with h2 | ⟨h2, hg, ht, hlt⟩
      · left; simpa [h2] using h
      · right
        exact ⟨c, List.mem_cons_self c l, by simpa [h2] using h, hg, ht, hlt⟩
    · right
      refine ⟨c2, List.mem_cons_of_mem c hc2, h, hg, ht, ?_⟩
      exact lt_of_lt_of_le hlt (updW_m_le img pts pstep gamma st c)

theorem maxFloat64_pos : (0 : ℚ) < maxFloat64 := by
  unfold maxFloat64; positivity

/-- Every weighted rectangle result is either the no-match `(0, 0, 0)` or a
recorded candidate with score `ratio/3`, gate-passing, with
`0 ≤ ratio < maxFloat64`. -/
theorem matchRectW_spec (img : RGBAImage) (pts : List ProbePoint)
    (step pstep gamma sx ex sy ey : ℕ) :
    matchRectW img pts step pstep gamma sx ex sy ey = (0, 0, 0) ∨
    ∃ c ∈ candList sx ex sy ey step,
      matchRectW img pts step pstep gamma sx ex sy ey =
        (c.1, c.2, (weightedSadAt img pts pstep gamma c.1 c.2
          / weightedTotAt img pts pstep gamma c.1 c.2) / 3) ∧
      minRequired pts pstep ≤ validCountAt img pts pstep c.1 c.2 ∧
      1 / 1000 < weightedTotAt img pts pstep gamma c.1 c.2 ∧
      weightedSadAt img pts pstep gamma c.1 c.2
          / weightedTotAt img pts pstep gamma c.1 c.2 < maxFloat64 := by
  unfold matchRectW
  rcases wFold_mem img pts pstep gamma (candList sx ex sy ey step) wInit with h | ⟨c, hc, h, hg, ht, hlt⟩
  · rw [h]; left; simp [wInit]
  · rw [h]
    right
    refine ⟨c, hc, ?_, hg, ht, hlt⟩
    have hne : weightedSadAt img pts pstep gamma c.1 c.2
        / weightedTotAt img pts pstep gamma c.1 c.2 ≠ maxFloat64 := ne_of_lt hlt
    simp [hne]

/-- A weighted rectangle's returned score is 0 or strictly between 0 and
`maxFloat64`. -/
theorem matchRectW_score_cases (img : RGBAImage) (pts : List ProbePoint)
    (step pstep gamma sx ex sy ey : ℕ) :
    (matchRectW img pts step pstep gamma sx ex sy ey).2.2 = 0 ∨
    (0 < (matchRectW img pts step pstep gamma sx ex sy ey).2.2 ∧
      (matchRectW img pts step pstep gamma sx ex sy ey).2.2 < maxFloat64) := by
  rcases matchRectW_spec img pts step pstep gamma sx ex sy ey with h | ⟨c, _, h, _, _, hlt⟩
  · rw [h]; left; rfl
  · rw [h]
    have h0 := weightedRatio_nonneg img pts pstep gamma c.1 c.2
    rcases eq_or_lt_of_le h0 with heq | hpos
    · left; simp [← heq]
    · right
      constructor
      · positivity
      · have hm := maxFloat64_pos
        simp only []
        linarith

/-! ### Weighted fan-in lemmas (valid for arbitrary result lists, hence for
any goroutine arrival order) -/

theorem fanInWStep_m_le (acc : WState) (b : ℕ × ℕ × ℚ) : (fanInWStep acc b).m ≤ acc.m := by
  unfold fanInWStep
  split_ifs with h
  · exact le_of_lt h.2
  · exact le_rfl

theorem wfanFold_m_mono (l : List (ℕ × ℕ × ℚ)) :
    ∀ acc : WState, (l.foldl fanInWStep acc).m ≤ acc.m := by
  induction l with
  | nil => intro acc; simp
  | cons b l ih =>
    intro acc
    exact le_trans (ih (fanInWStep acc b)) (fanInWStep_m_le acc b)

theorem wfanFold_m_pos (l : List (ℕ × ℕ × ℚ)) :
    ∀ acc : WState, 0 < acc.m → 0 < (l.foldl fanInWStep acc).m := by
  induction l with
  | nil => intro acc h; simpa using h
  | cons b l ih =>
    intro acc h
    refine ih (fanInWStep acc b) ?_
    unfold fanInWStep
    split_ifs with h2
    · exact h2.1
    · exact h

theorem wfanFold_le_of_mem (l : List (ℕ × ℕ × ℚ)) :
    ∀ acc : WState, ∀ b ∈ l, 0 < b.2.2 → (l.foldl fanInWStep acc).m ≤ b.2.2 := by
  induction l with
  | nil => intro acc b hb; exact absurd hb (List.not_mem_nil b)
  | cons b0 l ih =>
    intro acc b hb hpos
    rcases List.mem_cons.mp hb with rfl | hb2
    · refine le_trans (wfanFold_m_mono l (fanInWStep acc b)) ?_
      unfold fanInWStep
      split_ifs with h2
      · exact le_rfl
      · rcases not_and_or.mp h2 with h3 | h3
        · exact absurd hpos h3
        · exact le_of_not_lt h3
    · exact ih (fanInWStep acc b0) b hb2 hpos

theorem wfanFold_all_zero (l : List (ℕ × ℕ × ℚ)) :
    ∀ acc : WState, (∀ b ∈ l, b.2.2 = 0) → l.foldl fanInWStep acc = acc := by
  induction l with
  | nil => intro acc _; rfl
  | cons b l ih =>
    intro acc h
    have hb : b.2.2 = 0 := h b (List.mem_cons_self b l)
    have hstep : fanInWStep acc b = acc := by
      unfold fanInWStep
      rw [hb]
      simp
    rw [List.foldl_cons, hstep]
    exact ih acc (fun b2 hb2 => h b2 (List.mem_cons_of_mem b hb2))

theorem updW_of_sampled_nil (img : RGBAImage) (pts : List ProbePoint) (pstep gamma : ℕ)
    (h : sampledPoints pts pstep = []) (st : WState) (c : ℕ × ℕ) :
    updW img pts pstep gamma st c = st := by
  simp only [updW, h, scanW]
  split_ifs with h1 h2 h3 <;> first | rfl | (exfalso; norm_num at h2)

theorem foldl_updW_of_sampled_nil (img : RGBAImage) (pts : List ProbePoint)
    (pstep gamma : ℕ) (h : sampledPoints pts pstep = []) (l : List (ℕ × ℕ)) :
    ∀ st : WState, l.foldl (updW img pts pstep gamma) st = st := by
  induction l with
  | nil => intro st; rfl
  | cons c l ih =>
    intro st
    rw [List.foldl_cons, updW_of_sampled_nil img pts pstep gamma h st c]
    exact ih st

theorem matchRectW_of_sampled_nil (img : RGBAImage) (pts : List ProbePoint)
    (step pstep gamma sx ex sy ey : ℕ) (h : sampledPoints pts pstep = []) :
    matchRectW img pts step pstep gamma sx ex sy ey = (0, 0, 0) := by
  unfold matchRectW
  rw [foldl_updW_of_sampled_nil img pts pstep gamma h]
  simp [wInit]

theorem weightFold_ge (gamma : ℕ) (l : List ProbePoint) :
    ∀ acc : ℚ, acc + (l.length : ℚ) * (1 / 10) ≤
      l.foldl (fun a p => a + weightW p gamma) acc := by
  induction l with
  | nil => intro acc; simp
  | cons p l ih =>
    intro acc
    have h1 := weightW_ge p gamma
    have h2 := ih (acc + weightW p gamma)
    simp only [List.foldl_cons, List.length_cons]
    push_cast
    linarith

/-! ### Claim C9 -/

/-- Claim C9: in `MatchProbeWeighted` with `useConcurrency=true` the fan-in
reduction accepts a row band's result only when its score is strictly greater
than 0 (`lSad > 0 && lSad < globalMinWeightedSAD`), so a band whose best
weighted score is exactly 0 never updates the global minimum.  Hence, past
the geometry guard: if every band's best is 0 the function returns
`(0, 0, 0)`; a returned score of exactly 0 only ever comes as the `(0, 0, 0)`
no-match value (never a located offset); and whenever some band reports a
strictly positive best, the returned score is strictly positive — even if
another band found a perfect 0. -/
theorem C9_conc_weighted_drops_zero (img : RGBAImage) (probe : TemplateProbe)
    (step probeStep gamma : ℕ) (hstep : 0 < step) (hps : 0 < probeStep)
    (hw : 0 < (img.w : ℤ) - probe.Width) (hh : 0 < (img.h : ℤ) - probe.Height) :
    ((∀ b ∈ bandResultsW img probe.Points step probeStep gamma
        ((img.w : ℤ) - probe.Width).toNat ((img.h : ℤ) - probe.Height).toNat, b.2.2 = 0) →
      MatchProbeWeightedConc img probe step probeStep gamma = (0, 0, 0)) ∧
    ((MatchProbeWeightedConc img probe step probeStep gamma).2.2 = 0 →
      MatchProbeWeightedConc img probe step probeStep gamma = (0, 0, 0)) ∧
    ((∃ b ∈ bandResultsW img probe.Points step probeStep gamma
        ((img.w : ℤ) - probe.Width).toNat ((img.h : ℤ) - probe.Height).toNat, 0 < b.2.2) →
      0 < (MatchProbeWeightedConc img probe step probeStep gamma).2.2) := by
  have hguard : ¬((img.w : ℤ) - probe.Width ≤ 0 ∨ (img.h : ℤ) - probe.Height ≤ 0) := by
    push_neg
    exact ⟨hw, hh⟩
  by_cases hg2 : (sampledPoints probe.Points probeStep).length = 0 ∨
      (sampledPoints probe.Points probeStep).foldl (fun acc p => acc + weightW p gamma) 0
        < 1 / 1000
  · have hnil : sampledPoints probe.Points probeStep = [] := by
      rcases hg2 with h | h
      · exact List.length_eq_zero.mp h
      · by_contra hne
        have hlen : 1 ≤ (sampledPoints probe.Points probeStep).length :=
          Nat.one_le_iff_ne_zero.mpr (fun h0 => hne (List.length_eq_zero.mp h0))
        have hge := weightFold_ge gamma (sampledPoints probe.Points probeStep) 0
        have hlen2 : (1 : ℚ) ≤ ((sampledPoints probe.Points probeStep).length : ℚ) := by
          exact_mod_cast hlen
        nlinarith
    have hband : ∀ b ∈ bandResultsW img probe.Points step probeStep gamma
        ((img.w : ℤ) - probe.Width).toNat ((img.h : ℤ) - probe.Height).toNat,
        b = ((0, 0, 0) : ℕ × ℕ × ℚ) := by
      intro b hb
      unfold bandResultsW at hb
      rcases List.mem_map.mp hb with ⟨i, _, rfl⟩
      unfold bandResultW
      exact matchRectW_of_sampled_nil img probe.Points step probeStep gamma _ _ _ _ hnil
    have hres : MatchProbeWeightedConc img probe step probeStep gamma = (0, 0, 0) := by
      simp only [MatchProbeWeightedConc]
      rw [if_neg hguard, if_pos hg2]
    refine ⟨fun _ => hres, fun _ => hres, ?_⟩
    rintro ⟨b, hb, hpos⟩
    have hzero := hband b hb
    rw [hzero] at hpos
    norm_num at hpos
  · have hres : MatchProbeWeightedConc img probe step probeStep gamma =
        if (fanInW (bandResultsW img probe.Points step probeStep gamma
            ((img.w : ℤ) - probe.Width).toNat ((img.h : ℤ) - probe.Height).toNat)).m
          = maxFloat64
        then (0, 0, 0)
        else ((fanInW (bandResultsW img probe.Points step probeStep gamma
            ((img.w : ℤ) - probe.Width).toNat ((img.h : ℤ) - probe.Height).toNat)).x,
          (fanInW (bandResultsW img probe.Points step probeStep gamma
            ((img.w : ℤ) - probe.Width).toNat ((img.h : ℤ) - probe.Height).toNat)).y,
          (fanInW (bandResultsW img probe.Points step probeStep gamma
            ((img.w : ℤ) - probe.Width).toNat ((img.h : ℤ) - probe.Height).toNat)).m) := by
      simp only [MatchProbeWeightedConc]
      rw [if_neg hguard, if_neg hg2]
    set bands := bandResultsW img probe.Points step probeStep gamma
      ((img.w : ℤ) - probe.Width).toNat ((img.h : ℤ) - probe.Height).toNat with hbands
    have hposm : 0 < (fanInW bands).m := by
      unfold fanInW
      exact wfanFold_m_pos bands wInit maxFloat64_pos
    refine ⟨?_, ?_, ?_⟩
    · intro hall
      have hinit : fanInW bands = wInit := wfanFold_all_zero bands wInit hall
      rw [hres, hinit]
      simp [wInit]
    · intro h0
      rw [hres] at h0 ⊢
      by_cases hm : (fanInW bands).m = maxFloat64
      · rw [if_pos hm]
      · rw [if_neg hm] at h0
        simp only [] at h0
        exact absurd h0 (ne_of_gt hposm)
    · rintro ⟨b, hb, hpos⟩
      have hcase : b.2.2 = 0 ∨ (0 < b.2.2 ∧ b.2.2 < maxFloat64) := by
        rw [hbands] at hb
        unfold bandResultsW at hb
        rcases List.mem_map.mp hb with ⟨i, _, rfl⟩
        unfold bandResultW
        exact matchRectW_score_cases img probe.Points step probeStep gamma 0 _ _ _
      rcases hcase with h | ⟨_, hlt⟩
      · rw [h] at hpos
        norm_num at hpos
      · have hle : (fanInW bands).m ≤ b.2.2 := by
          unfold fanInW
          exact wfanFold_le_of_mem bands wInit b hb hpos
        have hm : (fanInW bands).m ≠ maxFloat64 := ne_of_lt (lt_of_le_of_lt hle hlt)
        rw [hres, if_neg hm]
        exact hposm

/-- Witness for C9 at the concrete fixture: the hypotheses hold at
`cImgA`/`cProbeA` with `step = probeStep = 1`, `gamma = 2`, and — applying
the theorem's third conjunct to the strictly positive first band — the
concurrent weighted score is strictly positive. -/
theorem C9_conc_weighted_drops_zero_witness :
    (0 < (1 : ℕ)) ∧ (0 : ℤ) < (cImgA.w : ℤ) - cProbeA.Width ∧
      0 < (MatchProbeWeightedConc cImgA cProbeA 1 1 2).2.2 :=
  ⟨Nat.one_pos, by decide,
    (C9_conc_weighted_drops_zero cImgA cProbeA 1 1 2 Nat.one_pos Nat.one_pos
      (by decide) (by decide)).2.2
      ⟨bandResultW cImgA cProbeA.Points 1 1 2 ((cImgA.w : ℤ) - cProbeA.Width).toNat
          ((cImgA.h : ℤ) - cProbeA.Height).toNat 0,
        by unfold bandResultsW; exact List.mem_map_of_mem _ (by decide),
        by
          show 0 < (bandResultW cImgA cProbeA.Points 1 1 2 1 1 0).2.2
          norm_num [bandResultW, bandRange, rowsPerWorker, matchRectW, candList, stepRange,
            sampledPoints, updW, scanW, weightW, wPointDiff, baseSadDiff, chromaPenalty,
            satPenalty, goAbs, goMax3, goMin3, pointValid, pointOff, cImgA, cProbeA,
            minRequired, wInit, maxFloat64, luma, chromaThreshold, chromaWeight,
            List.foldl_cons, List.foldl_nil, List.range_succ, List.range_zero,
            List.flatMap_cons, List.flatMap_nil, List.map_cons, List.map_nil]⟩⟩

/-! ### Claim C10 -/

theorem foldl_add_all_eq (v : ℚ) (l : List ℚ) :
    (∀ s ∈ l, s = v) → ∀ acc : ℚ, l.foldl (fun acc s => acc + s) acc = acc + l.length * v := by
  induction l with
  | nil => intro _ acc; simp
  | cons s l ih =>
    intro h acc
    have hs : s = v := h s (List.mem_cons_self s l)
    rw [List.foldl_cons, ih (fun t ht => h t (List.mem_cons_of_mem s ht)) (acc + s), hs]
    simp only [List.length_cons]
    push_cast
    ring

theorem foldl_sq_all_eq (m : ℚ) (l : List ℚ) :
    (∀ s ∈ l, s = m) →
      ∀ acc : ℚ, l.foldl (fun acc s => acc + (s - m) * (s - m)) acc = acc := by
  induction l with
  | nil => intro _ acc; rfl
  | cons s l ih =>
    intro h acc
    have hs : s = m := h s (List.mem_cons_self s l)
    rw [List.foldl_cons, hs]
    simpa using ih (fun t ht => h t (List.mem_cons_of_mem s ht)) acc

/-- Claim C10: `ComputeZScore(bestScore, allScores)` returns
`(mean - bestScore) / stddev` computed over the supplied scores, and returns
0 whenever fewer than 2 scores are supplied or the standard deviation is
approximately 0 (below `0.001`) — in particular whenever all scores are
equal.  `math.Sqrt` is abstracted by any `sqrtQ` with `sqrtQ 0 = 0`. -/
theorem C10_zscore_spec (sqrtQ : ℚ → ℚ) (hsqrt : sqrtQ 0 = 0) (best : ℚ)
    (scores : List ℚ) :
    (scores.length < 2 → ComputeZScore sqrtQ best scores = 0) ∧
    (∀ v : ℚ, (∀ s ∈ scores, s = v) → ComputeZScore sqrtQ best scores = 0) ∧
    (2 ≤ scores.length →
      ¬ sqrtQ (varianceSumOf scores / (scores.length : ℚ)) < 1 / 1000 →
      ComputeZScore sqrtQ best scores =
        (meanOf scores - best) / sqrtQ (varianceSumOf scores / (scores.length : ℚ))) := by
  refine ⟨?_, ?_, ?_⟩
  · intro hlen
    simp only [ComputeZScore]
    rw [if_pos hlen]
  · intro v hall
    by_cases hlen : scores.length < 2
    · simp only [ComputeZScore]
      rw [if_pos hlen]
    · have hlen0 : scores.length ≠ 0 := by omega
      have hmean : meanOf scores = v := by
        unfold meanOf sumOf
        rw [foldl_add_all_eq v scores hall 0]
        have : ((scores.length : ℚ)) ≠ 0 := Nat.cast_ne_zero.mpr hlen0
        field_simp
      have hvar : varianceSumOf scores = 0 := by
        unfold varianceSumOf
        rw [hmean]
        exact foldl_sq_all_eq v scores hall 0
      simp only [ComputeZScore]
      rw [if_neg hlen]
      have hv2 : scores.foldl
          (fun acc s => acc + (s - scores.foldl (fun acc s => acc + s) 0 / (scores.length : ℚ))
            * (s - scores.foldl (fun acc s => acc + s) 0 / (scores.length : ℚ))) 0 = 0 := hvar
      rw [hv2]
      norm_num [hsqrt]
  · intro hlen hstd
    have hz : ComputeZScore sqrtQ best scores =
        if sqrtQ (varianceSumOf scores / (scores.length : ℚ)) < 1 / 1000 then 0
        else (meanOf scores - best) / sqrtQ (varianceSumOf scores / (scores.length : ℚ)) := by
      simp only [ComputeZScore, varianceSumOf, meanOf, sumOf]
      rw [if_neg (by omega : ¬ scores.length < 2)]
    rw [hz, if_neg hstd]

/-- Witness for C10: with `sqrtQ := id` (and `id 0 = 0`), a single-element
score list yields a Z-score of 0 via the first conjunct. -/
theorem C10_zscore_spec_witness : id (0 : ℚ) = 0 ∧ ComputeZScore id 1 [5] = 0 :=
  ⟨rfl, (C10_zscore_spec id rfl 1 [5]).1 (by norm_num)⟩

/-! ### Claim C2 -/

/-- Counterexample to claim C2 as stated: a probe wider than the target and
an empty probe both make `MatchProbe` return literally `(0, 0, 0)` — exactly
the value returned for a genuine perfect match at the origin (`cProbeZero` on
`cImgB` passes the 85% gate and has exhaustive score 0 at `(0, 0)`).  The
degenerate result is therefore not distinguishable from a success, and the
empty probe is not reported distinctly. -/
theorem C2_counterexample :
    MatchProbe cImgA cProbeWide 1 1 = (0, 0, 0) ∧
    MatchProbe cImgB cProbeEmpty 1 1 = (0, 0, 0) ∧
    MatchProbe cImgB cProbeZero 1 1 = (0, 0, 0) ∧
    fullSadAt cImgB cProbeZero.Points 1 0 0 = 0 ∧
    minRequired cProbeZero.Points 1 ≤ validCountAt cImgB cProbeZero.Points 1 0 0 := by
  refine ⟨rfl, rfl, ?_, by decide, by decide⟩
  have h : matchRect cImgB cProbeZero.Points 1 1 0 ((cImgB.w : ℤ) - cProbeZero.Width).toNat 0
      ((cImgB.h : ℤ) - cProbeZero.Height).toNat = ⟨0, 0, 0⟩ := by decide
  simp only [MatchProbe]
  rw [if_neg (by decide : ¬((cImgB.w : ℤ) - cProbeZero.Width ≤ 0 ∨
    (cImgB.h : ℤ) - cProbeZero.Height ≤ 0))]
  rw [if_neg (by decide : ¬(cProbeZero.Points.length / 1 = 0))]
  rw [h]
  norm_num [calcAvgDiff, cProbeZero]

/-- Claim C2 amended: degenerate geometry (probe at least as wide or as tall
as the target) or zero sampled points (empty probe, or `probeStep` exceeding
the point count) makes `MatchProbe` return the sentinel `(0, 0, 0)` — the
same triple a successful perfect match at the origin produces, so callers
must check geometry and point count themselves rather than the returned
value. -/
theorem C2_degenerate_returns_origin_zero (img : RGBAImage) (probe : TemplateProbe)
    (step probeStep : ℕ) (hps : 0 < probeStep)
    (h : (img.w : ℤ) - probe.Width ≤ 0 ∨ (img.h : ℤ) - probe.Height ≤ 0 ∨
      probe.Points.length / probeStep = 0) :
    MatchProbe img probe step probeStep = (0, 0, 0) := by
  simp only [MatchProbe]
  by_cases h2 : (img.w : ℤ) - probe.Width ≤ 0 ∨ (img.h : ℤ) - probe.Height ≤ 0
  · rw [if_pos h2]
  · rcases h with h | h | h
    · exact absurd (Or.inl h) h2
    · exact absurd (Or.inr h) h2
    · rw [if_neg h2, if_pos h]

/-- Witness for the amended C2 at a concrete degenerate input. -/
theorem C2_degenerate_returns_origin_zero_witness :
    (0 < 1 ∧ (cImgA.w : ℤ) - cProbeWide.Width ≤ 0) ∧
      MatchProbe cImgA cProbeWide 1 1 = (0, 0, 0) :=
  ⟨⟨Nat.one_pos, by decide⟩,
    C2_degenerate_returns_origin_zero cImgA cProbeWide 1 1 Nat.one_pos
      (Or.inl (by decide))⟩

/-! ### Claim C4 -/

/-- Counterexample to claim C4: on `cImgB` with `cProbeB4` and
`probeStep = 2`, the winning candidate `(0, 0)` has 2 matched sampled points
and accumulated total 600, so the claim's formula gives
`600 / (2 × 3) = 100`; but the code divides by
`validPixels = len(points)/probeStep = 3/2 = 1`, returning `avgDiff = 200`. -/
theorem C4_counterexample :
    MatchProbe cImgB cProbeB4 1 2 = (0, 0, 200) ∧
    fullSadAt cImgB cProbeB4.Points 2 0 0 = 600 ∧
    validCountAt cImgB cProbeB4.Points 2 0 0 = 2 ∧
    (200 : ℚ) ≠ 600 / (2 * 3) := by
  refine ⟨?_, by decide, by decide, by norm_num⟩
  have h : matchRect cImgB cProbeB4.Points 1 2 0 ((cImgB.w : ℤ) - cProbeB4.Width).toNat 0
      ((cImgB.h : ℤ) - cProbeB4.Height).toNat = ⟨0, 0, 600⟩ := by decide
  simp only [MatchProbe]
  rw [if_neg (by decide : ¬((cImgB.w : ℤ) - cProbeB4.Width ≤ 0 ∨
    (cImgB.h : ℤ) - cProbeB4.Height ≤ 0))]
  rw [if_neg (by decide : ¬(cProbeB4.Points.length / 2 = 0))]
  rw [h]
  norm_num [calcAvgDiff, cProbeB4]

/-- Claim C4 amended: when the serial `MatchProbe` selects a candidate, the
returned `avgDiff` equals that candidate's exhaustive accumulated total
divided by `3 × (len(points)/probeStep)` — the nominal (integer-division)
sample count, not the per-candidate matched point count. -/
theorem C4_avgdiff_amended (img : RGBAImage) (probe : TemplateProbe) (step probeStep : ℕ)
    (hstep : 0 < step) (hps : 0 < probeStep)
    (hw : 0 < (img.w : ℤ) - probe.Width) (hh : 0 < (img.h : ℤ) - probe.Height)
    (hvp : probe.Points.length / probeStep ≠ 0) :
    MatchProbe img probe step probeStep =
      (0, 0, calcAvgDiff maxInt64 (probe.Points.length / probeStep)) ∨
    ∃ c ∈ serialCandidates img probe step,
      MatchProbe img probe step probeStep =
        (c.1, c.2, (fullSadAt img probe.Points probeStep c.1 c.2 : ℚ)
          / (((probe.Points.length / probeStep : ℕ) : ℚ) * 3)) := by
  have hres : MatchProbe img probe step probeStep =
      (let r := matchRect img probe.Points step probeStep 0
        ((img.w : ℤ) - probe.Width).toNat 0 ((img.h : ℤ) - probe.Height).toNat
      (r.x, r.y, calcAvgDiff r.sad (probe.Points.length / probeStep))) := by
    simp only [MatchProbe]
    rw [if_neg (by push_neg; exact ⟨hw, hh⟩), if_neg hvp]
  rw [matchRect_eq_full] at hres
  rcases matchFold_mem img probe.Points probeStep
      (candList 0 ((img.w : ℤ) - probe.Width).toNat 0 ((img.h : ℤ) - probe.Height).toNat step)
      mInit with h | ⟨c, hc, h, _⟩
  · left
    rw [hres]
    unfold matchRectFull at *
    rw [h]
    rfl
  · right
    refine ⟨c, hc, ?_⟩
    rw [hres]
    unfold matchRectFull at *
    rw [h]
    simp only [calcAvgDiff]
    rw [if_neg hvp]

/-- Witness for the amended C4 at the concrete `cProbeB4` fixture. -/
theorem C4_avgdiff_amended_witness :
    ((0 : ℤ) < (cImgB.w : ℤ) - cProbeB4.Width ∧ cProbeB4.Points.length / 2 ≠ 0) ∧
      (MatchProbe cImgB cProbeB4 1 2 =
        (0, 0, calcAvgDiff maxInt64 (cProbeB4.Points.length / 2)) ∨
      ∃ c ∈ serialCandidates cImgB cProbeB4 1,
        MatchProbe cImgB cProbeB4 1 2 =
          (c.1, c.2, (fullSadAt cImgB cProbeB4.Points 2 c.1 c.2 : ℚ)
            / (((cProbeB4.Points.length / 2 : ℕ) : ℚ) * 3))) :=
  ⟨⟨by decide, by decide⟩,
    C4_avgdiff_amended cImgB cProbeB4 1 2 Nat.one_pos (by decide) (by decide) (by decide)
      (by decide)⟩

/-! ### Claim C5 -/

/-- Counterexample to claim C5 as stated: with `cProbeB5` (10 points, 2 of
them out of bounds at every translation) on `cImgB`, every candidate —
including the returned best `(0, 0)` — has only 8 of 10 sampled points valid
(80%, i.e. more than 15% out of bounds), yet the floor-division gate
`minRequired = (10·85)/100 = 8` lets it through and it is selected. -/
theorem C5_counterexample :
    (MatchProbe cImgB cProbeB5 1 1).1 = 0 ∧
    (MatchProbe cImgB cProbeB5 1 1).2.1 = 0 ∧
    matchRect cImgB cProbeB5.Points 1 1 0 ((cImgB.w : ℤ) - cProbeB5.Width).toNat 0
      ((cImgB.h : ℤ) - cProbeB5.Height).toNat = ⟨0, 0, 0⟩ ∧
    mInit ≠ ⟨0, 0, 0⟩ ∧
    validCountAt cImgB cProbeB5.Points 1 0 0 * 100 <
      85 * (sampledPoints cProbeB5.Points 1).length ∧
    minRequired cProbeB5.Points 1 ≤ validCountAt cImgB cProbeB5.Points 1 0 0 := by
  refine ⟨by decide, by decide, by decide, by decide, by decide, by decide⟩

/-- Claim C5 amended: the gate actually enforced is
`validCount ≥ (len(points)·85)/(probeStep·100)` with integer division — a
floor against the nominal sample count rather than 85% of the points actually
sampled.  A candidate below that floor is indeed never selected, in either
variant; but (as the counterexample shows) candidates with more than 15% of
their sampled points out of bounds can still win. -/
theorem C5_gate_amended (img : RGBAImage) (pts : List ProbePoint)
    (step pstep sx ex sy ey : ℕ) :
    (matchRect img pts step pstep sx ex sy ey = mInit ∨
      minRequired pts pstep ≤ validCountAt img pts pstep
        (matchRect img pts step pstep sx ex sy ey).x
        (matchRect img pts step pstep sx ex sy ey).y) ∧
    (∀ gamma : ℕ, matchRectW img pts step pstep gamma sx ex sy ey = (0, 0, 0) ∨
      minRequired pts pstep ≤ validCountAt img pts pstep
        (matchRectW img pts step pstep gamma sx ex sy ey).1
        (matchRectW img pts step pstep gamma sx ex sy ey).2.1) := by
  constructor
  · rw [matchRect_eq_full]
    unfold matchRectFull
    rcases matchFold_mem img pts pstep (candList sx ex sy ey step) mInit with h | ⟨c, _, h, hg⟩
    · left; exact h
    · right
      rw [h]
      exact hg
  · intro gamma
    rcases matchRectW_spec img pts step pstep gamma sx ex sy ey with h | ⟨c, _, h, hg, _, _⟩
    · left; exact h
    · right
      rw [h]
      exact hg

/-- Witness for the amended C5 at the `cProbeB5` fixture (the theorem has no
side hypotheses; we record its instance at concrete arguments). -/
theorem C5_gate_amended_witness :
    (matchRect cImgB cProbeB5.Points 1 1 0 1 0 1 = mInit ∨
      minRequired cProbeB5.Points 1 ≤ validCountAt cImgB cProbeB5.Points 1
        (matchRect cImgB cProbeB5.Points 1 1 0 1 0 1).x
        (matchRect cImgB cProbeB5.Points 1 1 0 1 0 1).y) ∧
    (∀ gamma : ℕ, matchRectW cImgB cProbeB5.Points 1 1 gamma 0 1 0 1 = (0, 0, 0) ∨
      minRequired cProbeB5.Points 1 ≤ validCountAt cImgB cProbeB5.Points 1
        (matchRectW cImgB cProbeB5.Points 1 1 gamma 0 1 0 1).1
        (matchRectW cImgB cProbeB5.Points 1 1 gamma 0 1 0 1).2.1) :=
  C5_gate_amended cImgB cProbeB5.Points 1 1 0 1 0 1

/-! ### Claim C7 -/

/-- Claim C7: every sampled point's contribution (channel-wise SAD plus
chroma, saturation and gradient penalties) is nonnegative, so the running sum
of a candidate scan never decreases; consequently the branch-and-bound early
exit is lossless and the pruned rectangle scan returns exactly what the
exhaustive scan returns, for every image, probe, step and rectangle. -/
theorem C7_prune_lossless :
    (∀ (img : RGBAImage) (x y : ℕ) (p : ProbePoint), 0 ≤ pointContrib img x y p) ∧
    (∀ (img : RGBAImage) (x y : ℕ) (pts : List ProbePoint) (sad : ℤ) (cnt : ℕ),
      sad ≤ (scanFull img x y pts sad cnt).1) ∧
    (∀ (img : RGBAImage) (pts : List ProbePoint) (step pstep sx ex sy ey : ℕ),
      matchRect img pts step pstep sx ex sy ey =
        matchRectFull img pts step pstep sx ex sy ey) :=
  ⟨pointContrib_nonneg, fun img x y pts sad cnt => scanFull_fst_mono img x y pts sad cnt,
    matchRect_eq_full⟩

/-! ### Claim C6 -/

theorem mem_stepRange_zero (stop step a : ℕ) (hs : 0 < step) :
    a ∈ stepRange 0 stop step ↔ a < stop ∧ step ∣ a := by
  unfold stepRange
  simp only [List.mem_map, List.mem_range, Nat.zero_add]
  constructor
  · rintro ⟨k, hk, rfl⟩
    have h1 : (k + 1) * step ≤ (stop - 0 + step - 1) / step * step :=
      Nat.mul_le_mul_right _ hk
    have h2 : (stop - 0 + step - 1) / step * step ≤ stop - 0 + step - 1 :=
      Nat.div_mul_le_self _ _
    have h3 : (k + 1) * step = k * step + step := by ring
    exact ⟨by omega, dvd_mul_left step k⟩
  · rintro ⟨hlt, k, rfl⟩
    refine ⟨k, ?_, by ring⟩
    have hc : step * k = k * step := mul_comm step k
    have h3 : (k + 1) * step = k * step + step := by ring
    have hk1 : (k + 1) * step ≤ stop - 0 + step - 1 := by omega
    have := (Nat.le_div_iff_mul_le hs).mpr hk1
    omega

theorem mem_candList_zero (ex ey step : ℕ) (hs : 0 < step) (x y : ℕ) :
    (x, y) ∈ candList 0 ex 0 ey step ↔ x < ex ∧ step ∣ x ∧ y < ey ∧ step ∣ y := by
  unfold candList
  simp only [List.mem_flatMap, List.mem_map, Prod.mk.injEq]
  constructor
  · rintro ⟨y2, hy2, x2, hx2, hxx, hyy⟩
    subst hxx
    subst hyy
    have h1 := (mem_stepRange_zero ey step y2 hs).mp hy2
    have h2 := (mem_stepRange_zero ex step x2 hs).mp hx2
    exact ⟨h2.1, h2.2, h1.1, h1.2⟩
  · rintro ⟨hx, hdx, hy, hdy⟩
    exact ⟨y, (mem_stepRange_zero ey step y hs).mpr ⟨hy, hdy⟩, x,
      (mem_stepRange_zero ex step x hs).mpr ⟨hx, hdx⟩, rfl, rfl⟩

/-- Counterexample to claim C6 as stated: on `cImgC6` (4×3) with `cProbeC6`
(3×2) and `step = 1`, the translation `(1, 0)` satisfies the claim's bounds
`0 ≤ x ≤ imgW - probeW` (here `x = 1 = imgW - probeW`) and lies on the step
lattice, is a gate-passing perfect match (exhaustive score 0), yet it is not
among the candidates the scan examines, and `MatchProbe` returns `(0, 0)`
with `avgDiff = 100` instead. -/
theorem C6_counterexample :
    (1 : ℤ) ≤ (cImgC6.w : ℤ) - cProbeC6.Width ∧
    (1, 0) ∉ serialCandidates cImgC6 cProbeC6 1 ∧
    fullSadAt cImgC6 cProbeC6.Points 1 1 0 = 0 ∧
    minRequired cProbeC6.Points 1 ≤ validCountAt cImgC6 cProbeC6.Points 1 1 0 ∧
    MatchProbe cImgC6 cProbeC6 1 1 = (0, 0, 100) := by
  refine ⟨by decide, by decide, by decide, by decide, ?_⟩
  have h : matchRect cImgC6 cProbeC6.Points 1 1 0 ((cImgC6.w : ℤ) - cProbeC6.Width).toNat 0
      ((cImgC6.h : ℤ) - cProbeC6.Height).toNat = ⟨0, 0, 300⟩ := by decide
  simp only [MatchProbe]
  rw [if_neg (by decide : ¬((cImgC6.w : ℤ) - cProbeC6.Width ≤ 0 ∨
    (cImgC6.h : ℤ) - cProbeC6.Height ≤ 0))]
  rw [if_neg (by decide : ¬(cProbeC6.Points.length / 1 = 0))]
  rw [h]
  norm_num [calcAvgDiff, cProbeC6]

/-- Claim C6 amended: the serial scan examines exactly the step-lattice
translations of the HALF-OPEN box `0 ≤ x < imgW - probeW`,
`0 ≤ y < imgH - probeH` (the bounds are exclusive, so the rightmost and
bottommost offsets are never evaluated), and the returned offset is always
drawn from that set. -/
theorem C6_halfopen_lattice_amended (img : RGBAImage) (probe : TemplateProbe)
    (step pstep : ℕ) (hs : 0 < step) (hps : 0 < pstep)
    (hw : 0 < (img.w : ℤ) - probe.Width) (hh : 0 < (img.h : ℤ) - probe.Height)
    (hvp : probe.Points.length / pstep ≠ 0) :
    (∀ x y : ℕ, (x, y) ∈ serialCandidates img probe step ↔
      ((x : ℤ) < (img.w : ℤ) - probe.Width ∧ step ∣ x ∧
       (y : ℤ) < (img.h : ℤ) - probe.Height ∧ step ∣ y)) ∧
    ((MatchProbe img probe step pstep).1, (MatchProbe img probe step pstep).2.1)
      ∈ serialCandidates img probe step := by
  constructor
  · intro x y
    unfold serialCandidates
    rw [mem_candList_zero _ _ _ hs]
    constructor
    · rintro ⟨h1, h2, h3, h4⟩
      exact ⟨by omega, h2, by omega, h4⟩
    · rintro ⟨h1, h2, h3, h4⟩
      exact ⟨by omega, h2, by omega, h4⟩
  · have hres : MatchProbe img probe step pstep =
        (let r := matchRect img probe.Points step pstep 0
          ((img.w : ℤ) - probe.Width).toNat 0 ((img.h : ℤ) - probe.Height).toNat
        (r.x, r.y, calcAvgDiff r.sad (probe.Points.length / pstep))) := by
      simp only [MatchProbe]
      rw [if_neg (by push_neg; exact ⟨hw, hh⟩), if_neg hvp]
    rw [matchRect_eq_full] at hres
    unfold serialCandidates
    rcases matchFold_mem img probe.Points pstep
        (candList 0 ((img.w : ℤ) - probe.Width).toNat 0
          ((img.h : ℤ) - probe.Height).toNat step) mInit with h | ⟨c, hc, h, _⟩
    · rw [hres]
      unfold matchRectFull
      rw [h]
      exact (mem_candList_zero _ _ _ hs 0 0).mpr
        ⟨by omega, dvd_zero step, by omega, dvd_zero step⟩
    · rw [hres]
      unfold matchRectFull
      rw [h]
      exact hc

/-- Witness for the amended C6 at the `cImgC6` fixture. -/
theorem C6_halfopen_lattice_amended_witness :
    ((0 : ℤ) < (cImgC6.w : ℤ) - cProbeC6.Width ∧ (0, 0) ∈ serialCandidates cImgC6 cProbeC6 1) ∧
      ((MatchProbe cImgC6 cProbeC6 1 1).1, (MatchProbe cImgC6 cProbeC6 1 1).2.1)
        ∈ serialCandidates cImgC6 cProbeC6 1 :=
  ⟨⟨by decide, by decide⟩,
    (C6_halfopen_lattice_amended cImgC6 cProbeC6 1 1 Nat.one_pos Nat.one_pos
      (by decide) (by decide) (by decide)).2⟩

/-! ### Claim C8 -/

/-- Counterexample to claim C8 as stated: on `cImgA` with `cProbeA`,
`probeStep = 1`, `gamma = 2`, the winning candidate `(0, 0)` has
`Σ(diff·w)/Σ(w) = 300`, but `MatchProbeWeighted` returns score 100 — the
weighted average divided by 3 (the code's conversion to the `avgDiff`
scale), not the weighted average itself. -/
theorem C8_counterexample :
    MatchProbeWeighted cImgA cProbeA 1 1 2 = (0, 0, 100) ∧
    weightedSadAt cImgA cProbeA.Points 1 2 0 0
      / weightedTotAt cImgA cProbeA.Points 1 2 0 0 = 300 ∧
    (100 : ℚ) ≠ 300 := by
  refine ⟨?_, ?_, by norm_num⟩
  · norm_num [MatchProbeWeighted, matchRectW, candList, stepRange, sampledPoints, updW, scanW,
      weightW, wPointDiff, baseSadDiff, chromaPenalty, satPenalty, goAbs, goMax3, goMin3,
      pointValid, pointOff, cImgA, cProbeA, minRequired, wInit, maxFloat64, luma,
      chromaThreshold, chromaWeight,
      List.foldl_cons, List.foldl_nil, List.range_succ, List.range_zero, List.flatMap_cons,
      List.flatMap_nil, List.map_cons, List.map_nil]
  · norm_num [weightedSadAt, weightedTotAt, scanW, sampledPoints, stepRange, weightW,
      wPointDiff, baseSadDiff, chromaPenalty, satPenalty, goAbs, goMax3, goMin3, pointValid,
      pointOff, cImgA, cProbeA, luma, chromaThreshold, chromaWeight,
      List.foldl_cons, List.foldl_nil, List.range_succ, List.range_zero, List.map_cons,
      List.map_nil]

/-- Claim C8 amended: in `MatchProbeWeighted` each point's weight is
`max(0.1, (gradMag/255)^gamma)` (see `weightW`), the per-point diff is SAD
plus chroma and saturation penalties only (see `wPointDiff`, no gradient
penalty), and the returned score of a selected candidate equals
`(Σ(diff·w) / Σ(w)) / 3` at the returned offset — the weighted average
converted to the `avgDiff` scale by the final division by 3. -/
theorem C8_weighted_score_amended (img : RGBAImage) (probe : TemplateProbe)
    (step pstep gamma : ℕ) (hstep : 0 < step) (hps : 0 < pstep)
    (hw : 0 < (img.w : ℤ) - probe.Width) (hh : 0 < (img.h : ℤ) - probe.Height) :
    MatchProbeWeighted img probe step pstep gamma = (0, 0, 0) ∨
    ∃ c ∈ serialCandidates img probe step,
      MatchProbeWeighted img probe step pstep gamma =
        (c.1, c.2, (weightedSadAt img probe.Points pstep gamma c.1 c.2
          / weightedTotAt img probe.Points pstep gamma c.1 c.2) / 3) := by
  simp only [MatchProbeWeighted]
  rw [if_neg (by push_neg; exact ⟨hw, hh⟩)]
  by_cases hg2 : (sampledPoints probe.Points pstep).length = 0 ∨
      (sampledPoints probe.Points pstep).foldl (fun acc p => acc + weightW p gamma) 0 < 1 / 1000
  · left
    rw [if_pos hg2]
  · rw [if_neg hg2]
    rcases matchRectW_spec img probe.Points step pstep gamma 0
        ((img.w : ℤ) - probe.Width).toNat 0 ((img.h : ℤ) - probe.Height).toNat
      with h | ⟨c, hc, h, _⟩
    · left; exact h
    · right
      exact ⟨c, hc, h⟩

/-- Witness for the amended C8 at the `cImgA`/`cProbeA` fixture. -/
theorem C8_weighted_score_amended_witness :
    ((0 : ℤ) < (cImgA.w : ℤ) - cProbeA.Width) ∧
      (MatchProbeWeighted cImgA cProbeA 1 1 2 = (0, 0, 0) ∨
      ∃ c ∈ serialCandidates cImgA cProbeA 1,
        MatchProbeWeighted cImgA cProbeA 1 1 2 =
          (c.1, c.2, (weightedSadAt cImgA cProbeA.Points 1 2 c.1 c.2
            / weightedTotAt cImgA cProbeA.Points 1 2 c.1 c.2) / 3)) :=
  ⟨by decide,
    C8_weighted_score_amended cImgA cProbeA 1 1 2 Nat.one_pos Nat.one_pos
      (by decide) (by decide)⟩

/-! ### Claim C3: merge-fold machinery -/

theorem mergeM_assoc (a b c : MState) : mergeM (mergeM a b) c = mergeM a (mergeM b c) := by
  unfold mergeM
  split_ifs <;> first | rfl | (exfalso; omega)

theorem mergeM_sad_cases (a b : MState) : mergeM a b = a ∨ mergeM a b = b := by
  unfold mergeM
  split_ifs
  · right; rfl
  · left; rfl

/-- One exhaustive candidate step decomposes through the fan-in merge: its
effect on any running state (below the `MaxInt64` sentinel) is merging in its
from-scratch result. -/
theorem updFull_merge_unit (img : RGBAImage) (pts : List ProbePoint) (pstep : ℕ)
    (a : MState) (ha : a.sad ≤ maxInt64) (c : ℕ × ℕ) :
    updFull img pts pstep a c = mergeM a (updFull img pts pstep mInit c) := by
  simp only [updFull, mergeM, mInit, maxInt64] at *
  have hproj : (({ x := 0, y := 0, sad := 9223372036854775807 } : MState)).sad
      = 9223372036854775807 := rfl
  split_ifs <;> first | rfl | (exfalso; omega)

/-- Folding the exhaustive scan from any sub-`MaxInt64` state equals merging
that state with the from-scratch fold. -/
theorem foldl_updFull_merge (img : RGBAImage) (pts : List ProbePoint) (pstep : ℕ)
    (l : List (ℕ × ℕ)) :
    ∀ a : MState, a.sad ≤ maxInt64 →
      l.foldl (updFull img pts pstep) a = mergeM a (l.foldl (updFull img pts pstep) mInit) := by
  induction l with
  | nil =>
    intro a ha
    simp only [List.foldl_nil]
    have hproj : (({ x := 0, y := 0, sad := 9223372036854775807 } : MState)).sad
        = 9223372036854775807 := rfl
    unfold mergeM mInit maxInt64 at *
    rw [if_neg (by omega)]
  | cons c l ih =>
    intro a ha
    rw [List.foldl_cons, List.foldl_cons]
    have h1 : (updFull img pts pstep a c).sad ≤ maxInt64 :=
      le_trans (updFull_sad_le img pts pstep a c) ha
    have h2 : (updFull img pts pstep mInit c).sad ≤ maxInt64 :=
      updFull_sad_le img pts pstep mInit c
    rw [ih (updFull img pts pstep a c) h1, ih (updFull img pts pstep mInit c) h2,
      updFull_merge_unit img pts pstep a ha c]
    exact mergeM_assoc a (updFull img pts pstep mInit c) (l.foldl (updFull img pts pstep) mInit)

/-- The worker-order fan-in of per-band exhaustive folds equals one
exhaustive fold over the concatenated candidate lists. -/
theorem fanIn_eq_foldl_flatten (img : RGBAImage) (pts : List ProbePoint) (pstep : ℕ)
    (ls : List (List (ℕ × ℕ))) :
    ∀ a : MState, a.sad ≤ maxInt64 →
      (ls.map (fun l => l.foldl (updFull img pts pstep) mInit)).foldl mergeM a =
        ls.flatten.foldl (updFull img pts pstep) a := by
  induction ls with
  | nil => intro a _; rfl
  | cons l ls ih =>
    intro a ha
    rw [List.map_cons, List.foldl_cons, List.flatten_cons, List.foldl_append]
    have hBl : (l.foldl (updFull img pts pstep) mInit).sad ≤ maxInt64 :=
      matchFold_sad_mono img pts pstep l mInit
    have ha2 : (mergeM a (l.foldl (updFull img pts pstep) mInit)).sad ≤ maxInt64 := by
      rcases mergeM_sad_cases a (l.foldl (updFull img pts pstep) mInit) with h | h <;>
        rw [h] <;> assumption
    rw [ih _ ha2, foldl_updFull_merge img pts pstep l a ha]

/-! ### Claim C3: row-band tiling arithmetic -/

theorem stepRange_nil_of_le (start stop s : ℕ) (h : stop ≤ start) :
    stepRange start stop s = [] := by
  unfold stepRange
  have h1 : stop - start = 0 := by omega
  rw [h1]
  rcases Nat.eq_zero_or_pos s with hs | hs
  · subst hs; rfl
  · rw [Nat.div_eq_of_lt (by omega)]
    rfl

/-- Two adjacent step-aligned ranges concatenate, when the split point is a
lattice point. -/
theorem stepRange_concat (s m e : ℕ) (hs : 0 < s) (hdvd : s ∣ m) (hme : m ≤ e) :
    stepRange 0 m s ++ stepRange m e s = stepRange 0 e s := by
  obtain ⟨q, rfl⟩ := hdvd
  unfold stepRange
  have h1 : (s * q - 0 + s - 1) / s = q := by
    have he : s * q - 0 + s - 1 = (s - 1) + s * q := by omega
    rw [he, Nat.add_mul_div_left _ _ hs, Nat.div_eq_of_lt (by omega)]
    omega
  have h2 : (e - 0 + s - 1) / s = (e - s * q + s - 1) / s + q := by
    have he : e - 0 + s - 1 = (e - s * q + s - 1) + s * q := by omega
    rw [he, Nat.add_mul_div_left _ _ hs]
  rw [h1, h2, Nat.add_comm ((e - s * q + s - 1) / s) q, List.range_add, List.map_append,
    List.map_map]
  congr 1
  apply List.map_congr_left
  intro k _
  simp only [Function.comp_apply]
  ring

/-- Eight equal row bands of height `rowsPerWorker` cover at least one row
past `maxY`. -/
theorem eight_bands_cover (maxY s : ℕ) (hs : 0 < s) :
    maxY + 1 ≤ 8 * (rowsPerWorker maxY s * s) := by
  unfold rowsPerWorker
  have h8 : maxY / s + 1 ≤ 8 * ((maxY / s + 1 + 8 - 1) / 8) := by omega
  have hq := Nat.div_add_mod maxY s
  have hm : maxY % s < s := Nat.mod_lt _ hs
  have h1 : maxY + 1 ≤ (maxY / s + 1) * s := by
    have he : (maxY / s + 1) * s = s * (maxY / s) + s := by ring
    omega
  calc maxY + 1 ≤ (maxY / s + 1) * s := h1
    _ ≤ 8 * ((maxY / s + 1 + 8 - 1) / 8) * s := Nat.mul_le_mul_right _ h8
    _ = 8 * ((maxY / s + 1 + 8 - 1) / 8 * s) := by ring

theorem bandRange_fst (maxY s i : ℕ) :
    (bandRange maxY s i).1 = i * (rowsPerWorker maxY s * s) := by
  unfold bandRange
  simp only []
  ring

theorem bandRange_snd (maxY s i : ℕ) :
    (bandRange maxY s i).2 = min ((i + 1) * (rowsPerWorker maxY s * s)) (maxY + 1) := by
  have hassoc : (i + 1) * rowsPerWorker maxY s * s
      = (i + 1) * (rowsPerWorker maxY s * s) := by ring
  unfold bandRange
  simp only []
  split_ifs with h
  · rw [Nat.min_eq_right (by omega)]
  · rw [Nat.min_eq_left (by omega)]
    omega

/-- The eight band row ranges tile the lattice of `[0, min(8R, maxY+1))`. -/
theorem stepRange_tiles (s R : ℕ) (hs : 0 < s) (hR : s ∣ R) (B : ℕ) :
    ∀ n : ℕ, (List.range n).flatMap (fun i => stepRange (i * R) (min ((i + 1) * R) B) s)
      = stepRange 0 (min (n * R) B) s := by
  intro n
  induction n with
  | zero =>
    rw [List.range_zero, List.flatMap_nil]
    rw [show min (0 * R) B = 0 by omega]
    exact (stepRange_nil_of_le 0 0 s le_rfl).symm
  | succ n ih =>
    rw [List.range_succ, List.flatMap_append, ih, List.flatMap_cons, List.flatMap_nil,
      List.append_nil]
    have hn1 : n * R ≤ (n + 1) * R := Nat.mul_le_mul_right R (Nat.le_succ n)
    rcases le_or_lt B (n * R) with hB | hB
    · rw [Nat.min_eq_right hB, Nat.min_eq_right (le_trans hB hn1)]
      rw [stepRange_nil_of_le _ _ _ hB, List.append_nil]
    · rw [Nat.min_eq_left (le_of_lt hB)]
      exact stepRange_concat s (n * R) (min ((n + 1) * R) B) hs (Dvd.dvd.mul_left hR n)
        (le_min hn1 (le_of_lt hB))

/-- Dropping the extra row `maxY` from the lattice when it is not a lattice
point. -/
theorem stepRange_drop_top (s B : ℕ) (hs : 0 < s) (hnd : ¬ s ∣ B) :
    stepRange 0 (B + 1) s = stepRange 0 B s := by
  have hB : B ≠ 0 := fun h => hnd (h ▸ dvd_zero s)
  have hr : B % s ≠ 0 := fun h => hnd (Nat.dvd_of_mod_eq_zero h)
  have hrlt : B % s < s := Nat.mod_lt _ hs
  have hq := Nat.div_add_mod B s
  have hcount : (B + 1 - 0 + s - 1) / s = (B - 0 + s - 1) / s := by
    have hc1 : B + 1 - 0 + s - 1 = B + s := by omega
    have hc2 : B - 0 + s - 1 = (B - 1) + s := by omega
    have h1 : B - 1 = (B % s - 1) + s * (B / s) := by omega
    have h2 : ((B % s - 1) + s * (B / s)) / s = (B % s - 1) / s + B / s :=
      Nat.add_mul_div_left _ _ hs
    have h3 : (B % s - 1) / s = 0 := Nat.div_eq_of_lt (by omega)
    have h4 : (B - 1) / s = B / s := by
      rw [h1, h2, h3]
      omega
    rw [hc1, hc2, Nat.add_div_right _ hs, Nat.add_div_right _ hs, h4]
  unfold stepRange
  rw [hcount]

/-- The eight row bands collectively examine exactly the step lattice of
`[0, ex) × [0, maxY + 1)`: the serial candidate set plus the lattice points
of row `maxY`. -/
theorem bands_candidates (ex m s : ℕ) (hs : 0 < s) :
    (List.range 8).flatMap
      (fun i => candList 0 ex (bandRange m s i).1 (bandRange m s i).2 s)
      = candList 0 ex 0 (m + 1) s := by
  unfold candList
  rw [← List.flatMap_assoc]
  simp only [bandRange_fst, bandRange_snd]
  rw [stepRange_tiles s (rowsPerWorker m s * s) hs (dvd_mul_left s (rowsPerWorker m s))
    (m + 1) 8]
  rw [Nat.min_eq_right (eight_bands_cover m s hs)]

/-- Claim C3 amended: whenever `imgH - probeH` is NOT a multiple of `step`,
the concurrent `MatchProbe` returns exactly the serial result.  (In general
the bands additionally examine row `maxY = imgH - probeH`, which the serial
scan's strict `y < maxY` loop never visits, so the two can differ — see the
counterexample.) -/
theorem C3_conc_eq_serial_amended (img : RGBAImage) (probe : TemplateProbe)
    (step pstep : ℕ) (hs : 0 < step) (hps : 0 < pstep)
    (hnd : ¬ step ∣ ((img.h : ℤ) - probe.Height).toNat) :
    MatchProbeConc img probe step pstep = MatchProbe img probe step pstep := by
  simp only [MatchProbeConc, MatchProbe]
  by_cases hg : (img.w : ℤ) - probe.Width ≤ 0 ∨ (img.h : ℤ) - probe.Height ≤ 0
  · rw [if_pos hg, if_pos hg]
  · rw [if_neg hg, if_neg hg]
    by_cases hvp : probe.Points.length / pstep = 0
    · rw [if_pos hvp, if_pos hvp]
    · rw [if_neg hvp, if_neg hvp]
      have key : fanIn (bandResults img probe.Points step pstep
          ((img.w : ℤ) - probe.Width).toNat ((img.h : ℤ) - probe.Height).toNat) =
        matchRect img probe.Points step pstep 0
          ((img.w : ℤ) - probe.Width).toNat 0 ((img.h : ℤ) - probe.Height).toNat := by
        set ex := ((img.w : ℤ) - probe.Width).toNat with hex
        set m := ((img.h : ℤ) - probe.Height).toNat with hm
        have hbr : bandResults img probe.Points step pstep ex m =
            ((List.range 8).map (fun i =>
                candList 0 ex (bandRange m step i).1 (bandRange m step i).2 step)).map
              (fun l => l.foldl (updFull img probe.Points pstep) mInit) := by
          unfold bandResults
          rw [List.map_map]
          apply List.map_congr_left
          intro i _
          simp only [Function.comp_apply]
          unfold bandResult
          rw [matchRect_eq_full]
          rfl
        rw [hbr]
        unfold fanIn
        rw [fanIn_eq_foldl_flatten img probe.Points pstep
          ((List.range 8).map (fun i =>
            candList 0 ex (bandRange m step i).1 (bandRange m step i).2 step)) mInit le_rfl]
        rw [← List.flatMap_def, bands_candidates ex m step hs]
        have hdrop : candList 0 ex 0 (m + 1) step = candList 0 ex 0 m step := by
          unfold candList
          rw [stepRange_drop_top step m hs hnd]
        rw [hdrop, matchRect_eq_full]
        rfl
      rw [key]

/-- Witness for the amended C3: on `cImgC6` with `cProbeC6` and `step = 2`,
`maxY = 1` is not a multiple of the step, and the concurrent and serial
results agree. -/
theorem C3_conc_eq_serial_amended_witness :
    (0 < 2 ∧ ¬ 2 ∣ ((cImgC6.h : ℤ) - cProbeC6.Height).toNat) ∧
      MatchProbeConc cImgC6 cProbeC6 2 1 = MatchProbe cImgC6 cProbeC6 2 1 :=
  ⟨⟨by norm_num, by decide⟩,
    C3_conc_eq_serial_amended cImgC6 cProbeC6 2 1 (by norm_num) Nat.one_pos (by decide)⟩

/-- Counterexample to claim C3 as stated: on `cImgA` with `cProbeA`
(`step = probeStep = 1`), the serial scan examines only `(0, 0)` and returns
`(0, 0, 100)`, while the eight row bands additionally examine the translation
`(0, 1)` at row `maxY` (worker 1's capped band) and — band 1 holding the
unique strict minimum, so for every goroutine arrival order — the concurrent
call returns `(0, 1, 0)`: a different offset and a score differing by 100,
far beyond floating-point tolerance.  The full band-result list is recorded
to exhibit the unique minimum. -/
theorem C3_counterexample :
    MatchProbe cImgA cProbeA 1 1 = (0, 0, 100) ∧
    MatchProbeConc cImgA cProbeA 1 1 = (0, 1, 0) ∧
    serialCandidates cImgA cProbeA 1 = [(0, 0)] ∧
    (0, 1) ∈ candList 0 1 (bandRange 1 1 1).1 (bandRange 1 1 1).2 1 ∧
    bandResults cImgA cProbeA.Points 1 1 1 1 =
      [⟨0, 0, 300⟩, ⟨0, 1, 0⟩, mInit, mInit, mInit, mInit, mInit, mInit] := by
  refine ⟨?_, ?_, by decide, by decide, by decide⟩
  · have h : matchRect cImgA cProbeA.Points 1 1 0 ((cImgA.w : ℤ) - cProbeA.Width).toNat 0
        ((cImgA.h : ℤ) - cProbeA.Height).toNat = ⟨0, 0, 300⟩ := by decide
    simp only [MatchProbe]
    rw [if_neg (by decide : ¬((cImgA.w : ℤ) - cProbeA.Width ≤ 0 ∨
      (cImgA.h : ℤ) - cProbeA.Height ≤ 0))]
    rw [if_neg (by decide : ¬(cProbeA.Points.length / 1 = 0))]
    rw [h]
    norm_num [calcAvgDiff, cProbeA]
  · have h : fanIn (bandResults cImgA cProbeA.Points 1 1
        ((cImgA.w : ℤ) - cProbeA.Width).toNat ((cImgA.h : ℤ) - cProbeA.Height).toNat) =
        ⟨0, 1, 0⟩ := by decide
    simp only [MatchProbeConc]
    rw [if_neg (by decide : ¬((cImgA.w : ℤ) - cProbeA.Width ≤ 0 ∨
      (cImgA.h : ℤ) - cProbeA.Height ≤ 0))]
    rw [if_neg (by decide : ¬(cProbeA.Points.length / 1 = 0))]
    rw [h]
    norm_num [calcAvgDiff, cProbeA]

/-! ### Claim C1: the self-match development -/

/-- A byte of the crop, addressed by row `yy` and in-row offset `t`, is the
parent image's byte at row `oy + yy`, column offset `ox*4 + t`. -/
theorem copySubImage_pix (img : RGBAImage) (ox oy w h : ℕ) (yy t : ℤ)
    (hy : 0 ≤ yy) (ht : 0 ≤ t) (htw : t < 4 * (w : ℤ)) :
    (copySubImage img ox oy w h).pix (yy * (4 * (w : ℤ)) + t)
      = img.pix ((oy : ℤ) * img.stride + (ox : ℤ) * 4 + yy * img.stride + t) := by
  unfold copySubImage
  simp only []
  have hw : (0 : ℤ) < 4 * (w : ℤ) := by omega
  have hdiv : (yy * (4 * (w : ℤ)) + t) / (4 * (w : ℤ)) = yy := by
    have he : yy * (4 * (w : ℤ)) + t = t + (4 * (w : ℤ)) * yy := by ring
    rw [he, Int.add_mul_ediv_left t yy (by omega), Int.ediv_eq_zero_of_lt ht htw]
    omega
  have hmod : (yy * (4 * (w : ℤ)) + t) % (4 * (w : ℤ)) = t := by
    have he : yy * (4 * (w : ℤ)) + t = t + yy * (4 * (w : ℤ)) := by ring
    rw [he, Int.add_mul_emod_self, Int.emod_eq_of_lt ht htw]
  rw [hdiv, hmod]

/-- At its own translation, every `selfPoint` contributes zero: the scoring
reads the very bytes the point stores, every penalty's mismatch test
compares a value with itself. -/
theorem selfPoint_contrib_zero (img : RGBAImage) (ox oy x y : ℕ) :
    pointContrib img ox oy (selfPoint img ox oy x y) = 0 := by
  simp only [pointContrib, selfPoint, pointOff, baseSadDiff, chromaPenalty, satPenalty,
    gradPenalty, chromaThreshold, chromaWeight, sub_self, goAbs]
  norm_num

/-- A `selfPoint` at an in-bounds absolute pixel passes the scan's buffer
bounds check at translation `(ox, oy)`. -/
theorem selfPoint_valid (img : RGBAImage) (hst : img.stride = 4 * img.w)
    (hlen : img.pixLen = 4 * img.w * img.h) (ox oy x y : ℕ)
    (hx : ox + x < img.w) (hy : oy + y < img.h) :
    pointValid img ox oy (selfPoint img ox oy x y) := by
  unfold pointValid pointOff selfPoint
  simp only [hst, hlen]
  constructor
  · positivity
  · push_cast
    have hxz : (ox : ℤ) + x ≤ (img.w : ℤ) - 1 := by omega
    have hyz : (oy : ℤ) + y ≤ (img.h : ℤ) - 1 := by omega
    have hw0 : (0 : ℤ) ≤ (img.w : ℤ) := by positivity
    have key : 4 * (img.w : ℤ) * ((oy : ℤ) + y) ≤ 4 * (img.w : ℤ) * ((img.h : ℤ) - 1) := by
      apply mul_le_mul_of_nonneg_left hyz
      positivity
    nlinarith

theorem mem_stepRange_one (start m a : ℕ) : a ∈ stepRange start m 1 ↔ start ≤ a ∧ a < m := by
  unfold stepRange
  simp only [List.mem_map, List.mem_range]
  constructor
  · rintro ⟨k, hk, rfl⟩
    omega
  · intro h
    exact ⟨a - start, by omega, by omega⟩

/-- Whatever a builder iteration appends at `(x, y)` is the `selfPoint` of
its own image at translation `(0, 0)`. -/
theorem probePointAt_sound (img : RGBAImage) (mask : AlphaMask) (x y : ℕ) (p : ProbePoint)
    (hp : p ∈ probePointAt img mask x y) : p = selfPoint img 0 0 x y := by
  simp only [probePointAt] at hp
  repeat' split at hp
  all_goals
    first
      | exact absurd hp (List.not_mem_nil p)
      | · rw [List.mem_singleton] at hp
          subst hp
          simp only [selfPoint]
          push_cast
          simp only [zero_mul, zero_add, add_zero]

/-- The `selfPoint` of a crop, at the crop's own coordinates, is the parent
image's `selfPoint` at the crop's translation — every byte read moves through
`copySubImage`'s row mapping. -/
theorem selfPoint_crop (img : RGBAImage) (ox oy pw ph x y : ℕ)
    (hx1 : 1 ≤ x) (hx2 : x + 1 < pw) (hy1 : 1 ≤ y) :
    selfPoint (copySubImage img ox oy pw ph) 0 0 x y = selfPoint img ox oy x y := by
  have rd0 : ∀ yy xx : ℤ, 0 ≤ yy → 0 ≤ xx → xx * 4 < 4 * (pw : ℤ) →
      (copySubImage img ox oy pw ph).pix (yy * (4 * (pw : ℤ)) + xx * 4)
        = img.pix ((oy : ℤ) * img.stride + (ox : ℤ) * 4 + yy * img.stride + xx * 4) := by
    intro yy xx h1 h2 h3
    exact copySubImage_pix img ox oy pw ph yy (xx * 4) h1 (by omega) h3
  have rdc : ∀ yy xx c : ℤ, 0 ≤ yy → 0 ≤ xx → 0 ≤ c → xx * 4 + c < 4 * (pw : ℤ) →
      (copySubImage img ox oy pw ph).pix (yy * (4 * (pw : ℤ)) + xx * 4 + c)
        = img.pix ((oy : ℤ) * img.stride + (ox : ℤ) * 4 + yy * img.stride + xx * 4 + c) := by
    intro yy xx c h1 h2 h3 h4
    have e1 : yy * (4 * (pw : ℤ)) + xx * 4 + c = yy * (4 * (pw : ℤ)) + (xx * 4 + c) := by
      ring
    have e2 : (oy : ℤ) * img.stride + (ox : ℤ) * 4 + yy * img.stride + (xx * 4 + c)
        = (oy : ℤ) * img.stride + (ox : ℤ) * 4 + yy * img.stride + xx * 4 + c := by ring
    rw [e1, copySubImage_pix img ox oy pw ph yy (xx * 4 + c) h1 (by omega) h4, e2]
  simp only [selfPoint]
  rw [show (copySubImage img ox oy pw ph).stride = 4 * pw from rfl]
  push_cast
  simp only [zero_mul, zero_add, add_zero]
  rw [rd0 (y : ℤ) (x : ℤ) (by omega) (by omega) (by omega),
    rdc (y : ℤ) (x : ℤ) 1 (by omega) (by omega) (by omega) (by omega),
    rdc (y : ℤ) (x : ℤ) 2 (by omega) (by omega) (by omega) (by omega),
    rd0 (y : ℤ) ((x : ℤ) - 1) (by omega) (by omega) (by omega),
    rdc (y : ℤ) ((x : ℤ) - 1) 1 (by omega) (by omega) (by omega) (by omega),
    rdc (y : ℤ) ((x : ℤ) - 1) 2 (by omega) (by omega) (by omega) (by omega),
    rd0 (y : ℤ) ((x : ℤ) + 1) (by omega) (by omega) (by omega),
    rdc (y : ℤ) ((x : ℤ) + 1) 1 (by omega) (by omega) (by omega) (by omega),
    rdc (y : ℤ) ((x : ℤ) + 1) 2 (by omega) (by omega) (by omega) (by omega),
    rd0 ((y : ℤ) - 1) (x : ℤ) (by omega) (by omega) (by omega),
    rdc ((y : ℤ) - 1) (x : ℤ) 1 (by omega) (by omega) (by omega) (by omega),
    rdc ((y : ℤ) - 1) (x : ℤ) 2 (by omega) (by omega) (by omega) (by omega),
    rd0 ((y : ℤ) + 1) (x : ℤ) (by omega) (by omega) (by omega),
    rdc ((y : ℤ) + 1) (x : ℤ) 1 (by omega) (by omega) (by omega) (by omega),
    rdc ((y : ℤ) + 1) (x : ℤ) 2 (by omega) (by omega) (by omega) (by omega)]

/-- Every point the builder extracts from a crop is the parent image's
`selfPoint` at interior coordinates. -/
theorem crop_builder_mem (img : RGBAImage) (ox oy pw ph : ℕ) (p : ProbePoint)
    (hp : p ∈ (UpdateFromMinimap (copySubImage img ox oy pw ph) allValidMask).Points) :
    ∃ x y : ℕ, 1 ≤ x ∧ x + 1 < pw ∧ 1 ≤ y ∧ y + 1 < ph ∧ p = selfPoint img ox oy x y := by
  unfold UpdateFromMinimap at hp
  simp only [List.mem_flatMap] at hp
  obtain ⟨y, hy, x, hx, hpp⟩ := hp
  rw [show (copySubImage img ox oy pw ph).h = ph from rfl] at hy
  rw [show (copySubImage img ox oy pw ph).w = pw from rfl] at hx
  rw [mem_stepRange_one] at hy hx
  refine ⟨x, y, hx.1, by omega, hy.1, by omega, ?_⟩
  rw [probePointAt_sound _ _ _ _ p hpp]
  exact selfPoint_crop img ox oy pw ph x y hx.1 (by omega) hy.1

theorem sampledPoints_one (pts : List ProbePoint) : sampledPoints pts 1 = pts := by
  unfold sampledPoints stepRange
  have hc : (pts.length - 0 + 1 - 1) / 1 = pts.length := by omega
  rw [hc]
  apply List.ext_getElem
  · simp
  · intro i h1 h2
    simp only [List.getElem_map, List.getElem_range, zero_add, mul_one]
    exact List.getD_eq_getElem pts default (by simpa using h1)

theorem minRequired_le_length (pts : List ProbePoint) : minRequired pts 1 ≤ pts.length := by
  unfold minRequired
  have h : (1 : ℕ) * 100 = 100 := by norm_num
  rw [h]
  omega

theorem scanFull_all_zero (img : RGBAImage) (x y : ℕ) (pts : List ProbePoint)
    (h : ∀ p ∈ pts, pointValid img x y p ∧ pointContrib img x y p = 0) :
    ∀ sad : ℤ, ∀ cnt : ℕ, scanFull img x y pts sad cnt = (sad, cnt + pts.length) := by
  induction pts with
  | nil => intro sad cnt; simp [scanFull]
  | cons p rest ih =>
    intro sad cnt
    have hp := h p (List.mem_cons_self p rest)
    simp only [scanFull, if_pos hp.1, hp.2, add_zero]
    rw [ih (fun q hq => h q (List.mem_cons_of_mem p hq)) sad (cnt + 1)]
    have he : cnt + 1 + rest.length = cnt + (p :: rest).length := by
      simp only [List.length_cons]
      omega
    rw [he]

/-- Claim C1 amended: for a probe built by `UpdateFromMinimap` from the crop
`img[ox:ox+pw, oy:oy+ph]` with an all-valid mask, with the crop strictly
interior to the scanned range (`ox + pw < imgW`, `oy + ph < imgH` — the scan
never visits the flush-right/bottom offsets, see C6) and nonempty,
`MatchProbe(img, probe, 1, 1, false)` returns `avgDiff` exactly 0; and it
returns the offset `(ox, oy)` itself whenever `(ox, oy)` is the only scanned
translation with exhaustive score 0 (ties are resolved in scan order, so a
coincidental earlier zero-score offset would win instead). -/
theorem C1_selfmatch_amended (img : RGBAImage) (ox oy pw ph : ℕ) (probe : TemplateProbe)
    (hst : img.stride = 4 * img.w) (hlen : img.pixLen = 4 * img.w * img.h)
    (hprobe : probe = UpdateFromMinimap (copySubImage img ox oy pw ph) allValidMask)
    (hx : ox + pw < img.w) (hy : oy + ph < img.h) (hne : probe.Points ≠ []) :
    (MatchProbe img probe 1 1).2.2 = 0 ∧
    ((∀ c ∈ serialCandidates img probe 1,
        fullSadAt img probe.Points 1 c.1 c.2 = 0 → c = (ox, oy)) →
      ((MatchProbe img probe 1 1).1, (MatchProbe img probe 1 1).2.1) = (ox, oy)) := by
  have hW : probe.Width = (pw : ℤ) := by rw [hprobe]; rfl
  have hH : probe.Height = (ph : ℤ) := by rw [hprobe]; rfl
  have hpts : ∀ p ∈ probe.Points, pointValid img ox oy p ∧ pointContrib img ox oy p = 0 := by
    intro p hp
    rw [hprobe] at hp
    obtain ⟨x2, y2, hx1, hx2, hy1, hy2, rfl⟩ := crop_builder_mem img ox oy pw ph p hp
    exact ⟨selfPoint_valid img hst hlen ox oy x2 y2 (by omega) (by omega),
      selfPoint_contrib_zero img ox oy x2 y2⟩
  have hfull : fullSadAt img probe.Points 1 ox oy = 0 := by
    unfold fullSadAt
    rw [sampledPoints_one, scanFull_all_zero img ox oy probe.Points hpts 0 0]
  have hcnt : validCountAt img probe.Points 1 ox oy = probe.Points.length := by
    unfold validCountAt
    rw [sampledPoints_one, scanFull_all_zero img ox oy probe.Points hpts 0 0]
    omega
  have hgate : minRequired probe.Points 1 ≤ validCountAt img probe.Points 1 ox oy := by
    rw [hcnt]
    exact minRequired_le_length probe.Points
  have hlen1 : probe.Points.length ≠ 0 := fun h0 => hne (List.length_eq_zero.mp h0)
  have hvp : probe.Points.length / 1 ≠ 0 := by omega
  set L := candList 0 ((img.w : ℤ) - probe.Width).toNat 0
    ((img.h : ℤ) - probe.Height).toNat 1 with hL
  have hres : MatchProbe img probe 1 1 =
      ((L.foldl (updFull img probe.Points 1) mInit).x,
       (L.foldl (updFull img probe.Points 1) mInit).y,
       calcAvgDiff (L.foldl (updFull img probe.Points 1) mInit).sad
          (probe.Points.length / 1)) := by
    simp only [MatchProbe]
    rw [if_neg (by rw [hW, hH]; push_neg; constructor <;> omega), if_neg hvp,
      matchRect_eq_full]
    rfl
  have hmem : (ox, oy) ∈ L := by
    rw [hL, mem_candList_zero _ _ _ Nat.one_pos]
    rw [hW, hH]
    refine ⟨by omega, one_dvd _, by omega, one_dvd _⟩
  have hmin : (L.foldl (updFull img probe.Points 1) mInit).sad ≤ 0 := by
    have h := matchFold_min img probe.Points 1 L mInit (ox, oy) hmem hgate
    simpa [hfull] using h
  rcases matchFold_mem img probe.Points 1 L mInit with hcase | ⟨c, hc, hcase, hg⟩
  · rw [hcase] at hmin
    norm_num [mInit, maxInt64] at hmin
  · have hsad0 : fullSadAt img probe.Points 1 c.1 c.2 = 0 := by
      have hge : 0 ≤ fullSadAt img probe.Points 1 c.1 c.2 := by
        unfold fullSadAt
        exact scanFull_fst_mono img c.1 c.2 _ 0 0
      have hle : fullSadAt img probe.Points 1 c.1 c.2 ≤ 0 := by
        rw [hcase] at hmin
        simpa using hmin
      omega
    constructor
    · rw [hres, hcase]
      simp only [hsad0]
      simp [calcAvgDiff]
    · intro huniq
      have hco : c = (ox, oy) := huniq c hc hsad0
      rw [hres, hcase]
      simp only []
      calc ((c.1, c.2) : ℕ × ℕ) = c := Prod.mk.eta
        _ = (ox, oy) := hco

/-- Witness for C1: the probe cut from `cImgD` at `(1, 0)` (size 3×3, strictly
interior to the scanned half-open range) self-matches: `MatchProbe` returns
`avgDiff = 0` and the offset `(1, 0)`, the unique zero-score candidate. -/
theorem C1_selfmatch_amended_witness :
    (MatchProbe cImgD cProbeD 1 1).2.2 = 0 ∧
    ((MatchProbe cImgD cProbeD 1 1).1, (MatchProbe cImgD cProbeD 1 1).2.1) = (1, 0) := by
  have h := C1_selfmatch_amended cImgD 1 0 3 3 cProbeD rfl rfl rfl
    (by decide) (by decide) (by decide)
  exact ⟨h.1, h.2 (by decide)⟩

/-- Claim C1 counterexample: for the probe cut from `cImgD` at `(2, 0)` — a
crop flush with the right edge, `ox + pw = imgW` — the translation `(2, 0)`
scores a perfect exhaustive 0, yet `MatchProbe(cImgD, probe, 1, 1)` does not
return the offset `(2, 0)`: the serial scan's strict bound `x < imgW - probeW`
never visits it, refuting the unconditional self-match claim. -/
theorem C1_counterexample :
    fullSadAt cImgD cProbeD2.Points 1 2 0 = 0 ∧
    ((MatchProbe cImgD cProbeD2 1 1).1, (MatchProbe cImgD cProbeD2 1 1).2.1) ≠ (2, 0) := by
  constructor
  · decide
  · decide

end MapService
